import Mathlib

/-!
# Form Component Tree Engine — shallow embedding

A shallow embedding of the form-component-tree engine of `form-js-mcp`:
the recursive component tree, the pure traversal helpers
(`src/handlers/helpers.ts`), the mutation handlers (add / duplicate /
delete / move / type-replace / set-options), the semantic validator
(`src/validator.ts`), the two-column layout strategy
(`src/handlers/core/auto-layout-form.ts`), the undo/redo history
(`form-history`) and the batch engine (`batch-form-operations`).

JavaScript conventions are modelled explicitly:
* optional / `undefined` object fields become `Option`;
* JS truthiness tests on strings (`if (comp.key)`) treat the empty
  string like `undefined`, captured by `truthy?`;
* the random suffixes drawn from `randomBytes` are passed in as
  explicit oracle arguments (`sfx : Nat → String`), since they are the
  only source of nondeterminism;
* in-place mutation of a node found by id becomes a functional update
  of the first node in depth-first order carrying that id, which is
  exactly the node the handlers alias via `findComponentById` /
  `findParentComponents`.
-/

namespace FormJs

/-- JS string truthiness for an optional string: `undefined`, `null` and
`""` are falsy. -/
def truthy? : Option String → Option String
  | some s => if s = "" then none else some s
  | none => none

@[simp] theorem truthy?_none : truthy? none = none := rfl

@[simp] theorem truthy?_some (s : String) :
    truthy? (some s) = if s = "" then none else some s := rfl

/-! ## Field type classifications (`src/constants.ts`) -/

def INPUT_FIELD_TYPES : List String :=
  ["textfield", "textarea", "number", "datetime", "expression", "filepicker"]

def SELECTION_FIELD_TYPES : List String :=
  ["checkbox", "checklist", "radio", "select", "taglist"]

def PRESENTATION_FIELD_TYPES : List String :=
  ["text", "html", "image", "table", "documentPreview", "spacer", "separator"]

def CONTAINER_FIELD_TYPES : List String := ["group", "dynamiclist", "iframe"]

def ACTION_FIELD_TYPES : List String := ["button"]

def KEYED_FIELD_TYPES : List String := INPUT_FIELD_TYPES ++ SELECTION_FIELD_TYPES

def OPTIONS_FIELD_TYPES : List String := ["select", "radio", "checklist", "taglist"]

def SUPPORTED_FIELD_TYPES : List String :=
  INPUT_FIELD_TYPES ++ SELECTION_FIELD_TYPES ++ PRESENTATION_FIELD_TYPES ++
    CONTAINER_FIELD_TYPES ++ ACTION_FIELD_TYPES

def DEFAULT_COLUMNS : Nat := 16

/-- `isKeyedType` from `handlers/helpers.ts`. -/
def isKeyedType (t : String) : Bool := KEYED_FIELD_TYPES.contains t

/-- `isSupportedType` from `handlers/helpers.ts`. -/
def isSupportedType (t : String) : Bool := SUPPORTED_FIELD_TYPES.contains t

/-- `isOptions` from the type-replace handlers. -/
def isOptionsType (t : String) : Bool := OPTIONS_FIELD_TYPES.contains t

/-- `isContainer` from the type-replace handlers. -/
def isContainerType (t : String) : Bool := CONTAINER_FIELD_TYPES.contains t

/-! ## Data model (`src/types.ts`) -/

/-- `FormLayout`: grid placement of a component. -/
structure FormLayout where
  columns : Option Int := none
  row : Option String := none
deriving DecidableEq, Repr

/-- `FormOptionValue`: one selectable option. -/
structure FormOptionValue where
  label : String
  value : String
deriving DecidableEq, Repr

/-- The scalar fields of `FormComponent` (`src/types.ts`).  `validate`,
`defaultValue` and the free-form `properties` bag are opaque payloads for
the claims under study and are modelled as opaque strings; the open index
signature (`[key: string]: any`) carries only type-specific extras that
every studied code path either ignores or removes. -/
structure CompData where
  type : String
  id : Option String := none
  key : Option String := none
  label : Option String := none
  description : Option String := none
  defaultValue : Option String := none
  disabled : Option Bool := none
  readonly : Option Bool := none
  validate : Option String := none
  conditional : Option String := none
  layout : Option FormLayout := none
  values : Option (List FormOptionValue) := none
  valuesKey : Option String := none
  valuesExpression : Option String := none
  properties : Option String := none
deriving DecidableEq, Repr

/-- `FormComponent`: a node of the component tree.  `children` models the
optional `components` array (`none` = the property is absent). -/
inductive Comp : Type where
  | mk (data : CompData) (children : Option (List Comp)) : Comp

def Comp.data : Comp → CompData
  | .mk d _ => d

def Comp.children : Comp → Option (List Comp)
  | .mk _ c => c

@[simp] theorem Comp.data_mk (d : CompData) (c : Option (List Comp)) :
    (Comp.mk d c).data = d := rfl

@[simp] theorem Comp.children_mk (d : CompData) (c : Option (List Comp)) :
    (Comp.mk d c).children = c := rfl

/-- `FormSchema`: the aggregate root's `components` sequence.  The schema
metadata (`schemaVersion`, exporter info, …) is never read by the studied
operations. -/
structure FormSchema where
  components : List Comp

/-- `FormState`: a stored form.  `version` models the optional counter
(`version?: number`, read with `?? 0`). -/
structure FormState where
  name : Option String := none
  schema : FormSchema
  version : Nat := 0

/-! ## Pure traversal helpers (`src/handlers/helpers.ts`) -/

/-- `findComponentById`: depth-first search for the first component whose
`id` strictly equals the argument. -/
def findComponentById : List Comp → String → Option Comp
  | [], _ => none
  | Comp.mk d none :: rest, i =>
    if d.id = some i then some (Comp.mk d none) else findComponentById rest i
  | Comp.mk d (some cs) :: rest, i =>
    if d.id = some i then some (Comp.mk d (some cs))
    else
      match findComponentById cs i with
      | some found => some found
      | none => findComponentById rest i

/-- `findParentComponents`: returns the components array that contains the
first component (in depth-first order) with the given id. -/
def findParentComponents : List Comp → String → Option (List Comp)
  | [], _ => none
  | Comp.mk d none :: rest, i =>
    if d.id = some i then some (Comp.mk d none :: rest)
    else findParentComponents rest i
  | Comp.mk d (some cs) :: rest, i =>
    if d.id = some i then some (Comp.mk d (some cs) :: rest)
    else
      match findParentComponents cs i with
      | some found => some found
      | none => findParentComponents rest i

/-- `collectAllKeys`: all truthy `key` values, in depth-first order
(node before children). -/
def collectAllKeys : List Comp → List String
  | [] => []
  | Comp.mk d none :: rest =>
    (match truthy? d.key with | some k => [k] | none => []) ++ collectAllKeys rest
  | Comp.mk d (some cs) :: rest =>
    (match truthy? d.key with | some k => [k] | none => []) ++
      collectAllKeys cs ++ collectAllKeys rest

/-- `collectAllIds`: all truthy `id` values, in depth-first order. -/
def collectAllIds : List Comp → List String
  | [] => []
  | Comp.mk d none :: rest =>
    (match truthy? d.id with | some i => [i] | none => []) ++ collectAllIds rest
  | Comp.mk d (some cs) :: rest =>
    (match truthy? d.id with | some i => [i] | none => []) ++
      collectAllIds cs ++ collectAllIds rest

/-- `countComponents`: number of nodes in the forest. -/
def countComponents : List Comp → Nat
  | [] => 0
  | Comp.mk _ none :: rest => 1 + countComponents rest
  | Comp.mk _ (some cs) :: rest => 1 + countComponents cs + countComponents rest

/-- All nodes of the forest in depth-first order (node before children),
used to state tree-wide invariants. -/
def allCompsList : List Comp → List Comp
  | [] => []
  | Comp.mk d none :: rest => Comp.mk d none :: allCompsList rest
  | Comp.mk d (some cs) :: rest =>
    Comp.mk d (some cs) :: (allCompsList cs ++ allCompsList rest)

/-- The ids components actually carry (including an empty-string id, which
JS truthiness hides from `collectAllIds`). -/
def presentIds (cs : List Comp) : List String :=
  (allCompsList cs).filterMap (fun c => c.data.id)

/-- The keys carried by components of keyed type — the notion of key
uniqueness in the specification. -/
def keyedKeys (cs : List Comp) : List String :=
  (allCompsList cs).filterMap
    (fun c => if isKeyedType c.data.type then c.data.key else none)

/-! ## Decimal numerals

The key-disambiguation loops append decimal counters (`` `${key}${n}` ``).
To know that the loops always find a fresh candidate we prove that
`Nat.repr` is injective, connecting the fuelled core implementation
`Nat.toDigitsCore` to `Nat.digits`. -/

theorem toDigitsCore_acc (b : Nat) :
    ∀ (f n : Nat) (ds : List Char),
      Nat.toDigitsCore b f n ds = Nat.toDigitsCore b f n [] ++ ds := by
  intro f
  induction f with
  | zero => intro n ds; simp [Nat.toDigitsCore]
  | succ f ih =>
    intro n ds
    simp only [Nat.toDigitsCore]
    by_cases h : n / b = 0
    · simp [h]
    · simp only [h, if_false]
      rw [ih (n / b) (Nat.digitChar (n % b) :: ds),
        ih (n / b) [Nat.digitChar (n % b)], List.append_assoc]
      rfl

theorem toDigitsCore_eq_digits :
    ∀ (n : Nat), 0 < n → ∀ (f : Nat), n < f →
      Nat.toDigitsCore 10 f n [] =
        ((Nat.digits 10 n).map Nat.digitChar).reverse := by
  intro n
  induction n using Nat.strong_induction_on with
  | _ n ih =>
    intro hn f hf
    match f, hf with
    | f + 1, hf =>
      simp only [Nat.toDigitsCore]
      rw [Nat.digits_def' (b := 10) (by norm_num) hn]
      by_cases h : n / 10 = 0
      · have : Nat.digits 10 (n / 10) = [] := by rw [h]; simp
        simp [h, this]
      · have h10 : n / 10 < n := Nat.div_lt_self hn (by norm_num)
        have hlt : n / 10 < f := by omega
        rw [toDigitsCore_acc, ih (n / 10) h10 (Nat.pos_of_ne_zero h) f hlt]
        simp [h]

theorem repr_eq_digits (n : Nat) (hn : 0 < n) :
    Nat.repr n = (((Nat.digits 10 n).map Nat.digitChar).reverse).asString := by
  unfold Nat.repr Nat.toDigits
  rw [toDigitsCore_eq_digits n hn (n + 1) (Nat.lt_succ_self n)]

theorem digitChar_inj_lt :
    ∀ x < 10, ∀ y < 10, Nat.digitChar x = Nat.digitChar y → x = y := by
  decide

theorem map_digitChar_inj :
    ∀ (l₁ l₂ : List Nat), (∀ x ∈ l₁, x < 10) → (∀ x ∈ l₂, x < 10) →
      l₁.map Nat.digitChar = l₂.map Nat.digitChar → l₁ = l₂ := by
  intro l₁
  induction l₁ with
  | nil => intro l₂ _ _ h; cases l₂ <;> simp_all
  | cons x l ih =>
    intro l₂ h₁ h₂ h
    cases l₂ with
    | nil => simp at h
    | cons y l' =>
      simp only [List.map_cons, List.cons.injEq] at h
      have hx : x = y :=
        digitChar_inj_lt x (h₁ x (by simp)) y (h₂ y (by simp)) h.1
      have := ih l' (fun z hz => h₁ z (by simp [hz]))
        (fun z hz => h₂ z (by simp [hz])) h.2
      simp [hx, this]

theorem reprInj : ∀ {m n : Nat}, Nat.repr m = Nat.repr n → m = n := by
  intro m n h
  rcases Nat.eq_zero_or_pos m with hm | hm
  · rcases Nat.eq_zero_or_pos n with hn | hn
    · omega
    · subst hm
      rw [repr_eq_digits n hn] at h
      have hdig : ((Nat.digits 10 n).map Nat.digitChar).reverse = ['0'] := by
        have : Nat.repr 0 = "0" := rfl
        rw [this] at h
        have := congrArg String.data h
        simpa [List.asString] using this.symm
      have : (Nat.digits 10 n).map Nat.digitChar = ['0'] := by
        have := congrArg List.reverse hdig
        simpa using this
      obtain ⟨x, hx, hmap⟩ : ∃ x, Nat.digits 10 n = [x] ∧ Nat.digitChar x = '0' := by
        cases hd : Nat.digits 10 n with
        | nil => rw [hd] at this; simp at this
        | cons a l =>
          rw [hd] at this
          cases l with
          | nil => simp at this; exact ⟨a, rfl, this⟩
          | cons b l' => simp at this
      have hx10 : x < 10 :=
        Nat.digits_lt_base (by norm_num) (by rw [hx]; simp)
      have hx0 : x = 0 := digitChar_inj_lt x hx10 0 (by norm_num) hmap
      have := Nat.ofDigits_digits 10 n
      rw [hx, hx0] at this
      simp [Nat.ofDigits] at this
      omega
  · rcases Nat.eq_zero_or_pos n with hn | hn
    · subst hn
      rw [repr_eq_digits m hm] at h
      have hdig : ((Nat.digits 10 m).map Nat.digitChar).reverse = ['0'] := by
        have h0 : Nat.repr 0 = "0" := rfl
        rw [h0] at h
        have := congrArg String.data h
        simpa [List.asString] using this
      have : (Nat.digits 10 m).map Nat.digitChar = ['0'] := by
        have := congrArg List.reverse hdig
        simpa using this
      obtain ⟨x, hx, hmap⟩ : ∃ x, Nat.digits 10 m = [x] ∧ Nat.digitChar x = '0' := by
        cases hd : Nat.digits 10 m with
        | nil => rw [hd] at this; simp at this
        | cons a l =>
          rw [hd] at this
          cases l with
          | nil => simp at this; exact ⟨a, rfl, this⟩
          | cons b l' => simp at this
      have hx10 : x < 10 :=
        Nat.digits_lt_base (by norm_num) (by rw [hx]; simp)
      have hx0 : x = 0 := digitChar_inj_lt x hx10 0 (by norm_num) hmap
      have := Nat.ofDigits_digits 10 m
      rw [hx, hx0] at this
      simp [Nat.ofDigits] at this
      omega
    · rw [repr_eq_digits m hm, repr_eq_digits n hn] at h
      have := congrArg String.data h
      simp only [List.asString] at this
      have hrev := List.reverse_injective (by simpa using this)
      have hdig := map_digitChar_inj _ _
        (fun x hx => Nat.digits_lt_base (by norm_num) hx)
        (fun x hx => Nat.digits_lt_base (by norm_num) hx) hrev
      exact Nat.digits_inj_iff.mp hdig

theorem repr_ne_empty (n : Nat) : Nat.repr n ≠ "" := by
  rcases Nat.eq_zero_or_pos n with hn | hn
  · subst hn; decide
  · rw [repr_eq_digits n hn]
    intro h
    have := congrArg String.data h
    simp only [List.asString] at this
    have : (Nat.digits 10 n).map Nat.digitChar = [] := by
      have := congrArg List.reverse this
      simpa using this
    have hne : Nat.digits 10 n ≠ [] :=
      Nat.digits_ne_nil_iff_ne_zero.mpr (by omega)
    simp_all

/-! ## Numeric-suffix disambiguation -/

/-- The candidate sequence tried by the disambiguation loops: the base
itself, then `base1`, `base2`, …  (`resolveKey` and `applyTypeChange`
start their counters at 1; `deepCloneComponent` uses the same sequence
with base `` `${key}_copy` `` ). -/
def candidateKey (base : String) : Nat → String
  | 0 => base
  | n + 1 => base ++ Nat.repr (n + 1)

theorem candidateKey_injective (base : String) :
    Function.Injective (candidateKey base) := by
  intro i j h
  have length_pos : ∀ k : Nat, 0 < (Nat.repr k).length := by
    intro k
    cases hk : (Nat.repr k).data with
    | nil =>
      exact absurd (by apply String.ext; simpa using hk) (repr_ne_empty k)
    | cons a l => simp [String.length, hk]
  match i, j with
  | 0, 0 => rfl
  | 0, j + 1 =>
    exfalso
    have := congrArg String.length h
    simp [candidateKey, String.length_append] at this
    have := length_pos (j + 1)
    omega
  | i + 1, 0 =>
    exfalso
    have := congrArg String.length h
    simp [candidateKey, String.length_append] at this
    have := length_pos (i + 1)
    omega
  | i + 1, j + 1 =>
    simp only [candidateKey] at h
    have hdata := congrArg String.data h
    simp only [String.data_append] at hdata
    have := List.append_cancel_left hdata
    have : Nat.repr (i + 1) = Nat.repr (j + 1) := String.ext this
    have := reprInj this
    omega

/-- The fuelled form of the `while (existing.includes(candidate))` loops. -/
def disambigFrom (base : String) (existing : List String) : Nat → Nat → String
  | 0, ctr => candidateKey base ctr
  | fuel + 1, ctr =>
    if candidateKey base ctr ∈ existing then
      disambigFrom base existing fuel (ctr + 1)
    else candidateKey base ctr

/-- Numeric-suffix disambiguation: starting from `base`, append the first
counter value whose candidate is not among `existing`.
`existing.length + 1` fuel always suffices (the candidates are pairwise
distinct), so this is a faithful rendering of the source's unbounded
`while` loop. -/
def disambig (base : String) (existing : List String) : String :=
  disambigFrom base existing (existing.length + 1) 0

theorem disambigFrom_spec (base : String) (existing : List String) :
    ∀ (fuel ctr : Nat),
      disambigFrom base existing fuel ctr ∉ existing ∨
        ∀ i < fuel, candidateKey base (ctr + i) ∈ existing := by
  intro fuel
  induction fuel with
  | zero => intro ctr; right; intro i hi; omega
  | succ fuel ih =>
    intro ctr
    by_cases h : candidateKey base ctr ∈ existing
    · rcases ih (ctr + 1) with h' | h'
      · left; simpa [disambigFrom, h] using h'
      · right
        intro i hi
        match i with
        | 0 => simpa using h
        | i + 1 =>
          have := h' i (by omega)
          have harith : ctr + 1 + i = ctr + (i + 1) := by omega
          rwa [harith] at this
    · left; simp [disambigFrom, h]

/-! ## Functional tree updates

The handlers mutate, in place, the node returned by `findComponentById`
and the array returned by `findParentComponents` — always the first
match in depth-first order.  These are their functional counterparts. -/

/-- Replace the first component (depth-first) with the given id by `f` of
it, leaving everything else untouched. -/
def updateFirstById : List Comp → String → (Comp → Comp) → List Comp
  | [], _, _ => []
  | Comp.mk d none :: rest, i, f =>
    if d.id = some i then f (Comp.mk d none) :: rest
    else Comp.mk d none :: updateFirstById rest i f
  | Comp.mk d (some cs) :: rest, i, f =>
    if d.id = some i then f (Comp.mk d (some cs)) :: rest
    else
      match findComponentById cs i with
      | some _ => Comp.mk d (some (updateFirstById cs i f)) :: rest
      | none => Comp.mk d (some cs) :: updateFirstById rest i f

/-- `findParentComponents` + `findIndex` + `splice(idx, 1)`: remove the
first component (depth-first) with the given id, returning it and the
resulting forest. -/
def removeFirstById : List Comp → String → Option (Comp × List Comp)
  | [], _ => none
  | Comp.mk d none :: rest, i =>
    if d.id = some i then some (Comp.mk d none, rest)
    else
      match removeFirstById rest i with
      | some (x, rest') => some (x, Comp.mk d none :: rest')
      | none => none
  | Comp.mk d (some cs) :: rest, i =>
    if d.id = some i then some (Comp.mk d (some cs), rest)
    else
      match removeFirstById cs i with
      | some (x, cs') => some (x, Comp.mk d (some cs') :: rest)
      | none =>
        match removeFirstById rest i with
        | some (x, rest') => some (x, Comp.mk d (some cs) :: rest')
        | none => none

/-- JS `arr.splice(pos, 0, c)` for an in-range position. -/
def insertAt (l : List Comp) (p : Nat) (c : Comp) : List Comp :=
  l.take p ++ c :: l.drop p

/-- Move's insertion: insert when `pos !== undefined && pos >= 0 &&
pos <= targetArr.length`, else append. -/
def insertPosMove (l : List Comp) (c : Comp) : Option Int → List Comp
  | some p =>
    if 0 ≤ p ∧ p ≤ (l.length : Int) then insertAt l p.toNat c else l ++ [c]
  | none => l ++ [c]

/-- Add's insertion uses the strict bound `position <
targetComponents.length`. -/
def insertPosAdd (l : List Comp) (c : Comp) : Option Int → List Comp
  | some p =>
    if 0 ≤ p ∧ p < (l.length : Int) then insertAt l p.toNat c else l ++ [c]
  | none => l ++ [c]

/-! ## String helpers used by id / key generation -/

/-- `s.charAt(0).toUpperCase() + s.slice(1)`. -/
def upperFirst (s : String) : String :=
  match s.data with
  | [] => ""
  | c :: rest => ⟨c.toUpper :: rest⟩

/-- `s.charAt(0).toLowerCase() + s.slice(1)`. -/
def lowerFirst (s : String) : String :=
  match s.data with
  | [] => ""
  | c :: rest => ⟨c.toLower :: rest⟩

/-- `s.toLowerCase()` (ASCII, which is all the studied inputs use). -/
def lowerAll (s : String) : String := ⟨s.data.map Char.toLower⟩

/-- A JS `\w` word character: ASCII alphanumeric or underscore. -/
def isWordChar (c : Char) : Bool := c.isAlphanum || c = '_'

/-- `s.replaceAll(/[^\w]/g, '')`. -/
def stripNonWord (s : String) : String := ⟨s.data.filter isWordChar⟩

/-- `s.slice(0, n)`. -/
def takeChars (s : String) (n : Nat) : String := ⟨s.data.take n⟩

theorem disambig_not_mem (base : String) (existing : List String) :
    disambig base existing ∉ existing := by
  rcases disambigFrom_spec base existing (existing.length + 1) 0 with h | h
  · exact h
  · exfalso
    have hsub : ((List.range (existing.length + 1)).map
        (fun i => candidateKey base i)) ⊆ existing := by
      intro x hx
      simp only [List.mem_map, List.mem_range] at hx
      obtain ⟨i, hi, rfl⟩ := hx
      simpa using h i hi
    have hnd : ((List.range (existing.length + 1)).map
        (fun i => candidateKey base i)).Nodup :=
      (List.nodup_range _).map (candidateKey_injective base)
    have hfin : ((List.range (existing.length + 1)).map
        (fun i => candidateKey base i)).toFinset ⊆ existing.toFinset := by
      intro x hx
      rw [List.mem_toFinset] at hx ⊢
      exact hsub hx
    have h1 := List.toFinset_card_of_nodup hnd
    have h2 := Finset.card_le_card hfin
    have h3 := List.toFinset_card_le (l := existing)
    simp only [List.length_map, List.length_range] at h1
    omega

/-! ## Id and key generation (`handlers/helpers.ts`, add handler) -/

/-- `generateComponentId`: `Type_label_suffix` (label cleaned to word
characters and at most 20 of them) or `Type_suffix`; the random 4-byte hex
suffix is an explicit argument. -/
def generateComponentId (type : String) (label : Option String)
    (suffix : String) : String :=
  let pfx := upperFirst type
  match truthy? label with
  | some l =>
    let clean := takeChars (stripNonWord l) 20
    if clean.length > 0 then pfx ++ "_" ++ clean ++ "_" ++ suffix
    else pfx ++ "_" ++ suffix
  | none => pfx ++ "_" ++ suffix

/-- The base key derived by `resolveKey` in `add_form_component`: the
explicit key when truthy, else the label reduced to word characters
(at most 30) — or the type name — with the first character lower-cased. -/
def resolveKeyBase (explicitKey label : Option String) (type : String) : String :=
  match truthy? explicitKey with
  | some k => k
  | none =>
    let raw :=
      match truthy? label with
      | some l => takeChars (stripNonWord l) 30
      | none => type
    lowerFirst raw

/-- `resolveKey`: derive a base key and disambiguate it against every key
in the tree by appending an increasing numeric suffix. -/
def resolveKey (rootComponents : List Comp) (explicitKey label : Option String)
    (type : String) : String :=
  disambig (resolveKeyBase explicitKey label type) (collectAllKeys rootComponents)

/-! ## Add / duplicate (`handlers/components/add-form-component.ts`) -/

mutual

/-- `deepCloneComponent`: spread-copy each node, give it the fresh id
`` `${comp.type}_${suffix}` `` (suffixes drawn from the oracle `sfx` in
visit order, tracked by the counter), and replace a truthy key by a
`_copy`-disambiguated one, pushed onto the running `existingKeys` list. -/
def deepCloneComp (sfx : Nat → String) :
    Comp → Nat → List String → Comp × Nat × List String
  | Comp.mk d none, n, ks =>
    let newId := d.type ++ "_" ++ sfx n
    match truthy? d.key with
    | some k =>
      let nk := disambig (k ++ "_copy") ks
      (Comp.mk { d with id := some newId, key := some nk } none, n + 1, ks ++ [nk])
    | none => (Comp.mk { d with id := some newId } none, n + 1, ks)
  | Comp.mk d (some l), n, ks =>
    let newId := d.type ++ "_" ++ sfx n
    match truthy? d.key with
    | some k =>
      let nk := disambig (k ++ "_copy") ks
      let res := deepCloneList sfx l (n + 1) (ks ++ [nk])
      (Comp.mk { d with id := some newId, key := some nk } (some res.1),
        res.2.1, res.2.2)
    | none =>
      let res := deepCloneList sfx l (n + 1) ks
      (Comp.mk { d with id := some newId } (some res.1), res.2.1, res.2.2)

/-- `clone.components.map(...)`, left to right, threading counter and
`existingKeys`. -/
def deepCloneList (sfx : Nat → String) :
    List Comp → Nat → List String → List Comp × Nat × List String
  | [], n, ks => ([], n, ks)
  | c :: rest, n, ks =>
    let r := deepCloneComp sfx c n ks
    let r' := deepCloneList sfx rest r.2.1 r.2.2
    (r.1 :: r'.1, r'.2.1, r'.2.2)

end

/-- Duplicate mode of `add_form_component`: clone the first component
(depth-first) with the source id and splice the clone in right after it. -/
def dupFirstById (sfx : Nat → String) :
    List Comp → String → Nat → List String →
      Option (List Comp × Comp × Nat × List String)
  | [], _, _, _ => none
  | Comp.mk d none :: rest, sid, n, ks =>
    if d.id = some sid then
      let r := deepCloneComp sfx (Comp.mk d none) n ks
      some (Comp.mk d none :: r.1 :: rest, r.1, r.2.1, r.2.2)
    else
      match dupFirstById sfx rest sid n ks with
      | some (rest', clone, n', ks') =>
        some (Comp.mk d none :: rest', clone, n', ks')
      | none => none
  | Comp.mk d (some cs) :: rest, sid, n, ks =>
    if d.id = some sid then
      let r := deepCloneComp sfx (Comp.mk d (some cs)) n ks
      some (Comp.mk d (some cs) :: r.1 :: rest, r.1, r.2.1, r.2.2)
    else
      match dupFirstById sfx cs sid n ks with
      | some (cs', clone, n', ks') =>
        some (Comp.mk d (some cs') :: rest, clone, n', ks')
      | none =>
        match dupFirstById sfx rest sid n ks with
        | some (rest', clone, n', ks') =>
          some (Comp.mk d (some cs) :: rest', clone, n', ks')
        | none => none

/-- The free-form `properties` argument of `add_form_component`, spread
into the fresh component by `{ type, id, ...(args.properties ?? {}) }`:
any modelled field it carries overrides the generated one. -/
structure AddBag where
  type : Option String := none
  id : Option String := none
  key : Option String := none
  label : Option String := none
  description : Option String := none
  defaultValue : Option String := none
  disabled : Option Bool := none
  readonly : Option Bool := none
  validate : Option String := none
  conditional : Option String := none
  layout : Option FormLayout := none
  values : Option (List FormOptionValue) := none
  valuesKey : Option String := none
  valuesExpression : Option String := none
  properties : Option String := none
  components : Option (List Comp) := none

/-- Spread the bag over the freshly built scalar data. -/
def applyBag (d : CompData) (b : AddBag) : CompData :=
  { type := b.type.getD d.type
    id := b.id.or d.id
    key := b.key.or d.key
    label := b.label.or d.label
    description := b.description.or d.description
    defaultValue := b.defaultValue.or d.defaultValue
    disabled := b.disabled.or d.disabled
    readonly := b.readonly.or d.readonly
    validate := b.validate.or d.validate
    conditional := b.conditional.or d.conditional
    layout := b.layout.or d.layout
    values := b.values.or d.values
    valuesKey := b.valuesKey.or d.valuesKey
    valuesExpression := b.valuesExpression.or d.valuesExpression
    properties := b.properties.or d.properties }

/-- Arguments of `add_form_component` (minus the form id, resolved by the
caller). -/
structure AddArgs where
  type : Option String := none
  key : Option String := none
  label : Option String := none
  parentId : Option String := none
  position : Option Int := none
  properties : AddBag := {}
  sourceComponentId : Option String := none

/-- `resolveTarget`: root when `parentId` is falsy, else the named
component — which must exist and be a container. -/
def resolveTargetCheck (rootComponents : List Comp) (parentId : Option String) :
    Except String (Option String) :=
  match truthy? parentId with
  | none => .ok none
  | some pid =>
    match findComponentById rootComponents pid with
    | none => .error s!"Parent component not found: {pid}"
    | some parent =>
      if isContainerType parent.data.type then .ok (some pid)
      else .error s!"Parent {pid} (type: {parent.data.type}) is not a container"

/-- `handleAddFormComponent`.  Duplicate mode when `sourceComponentId` is
truthy; otherwise builds `{ type, id, ...properties }`, overrides `label`
when the argument is defined, and assigns a disambiguated key for keyed
types.  `sfx` is the oracle for the random suffixes (`sfx 0` is the id
suffix of normal mode; duplicate mode draws one per cloned node). -/
def handleAddFormComponent (f : FormState) (a : AddArgs) (sfx : Nat → String) :
    Except String (FormState × Comp) :=
  match truthy? a.sourceComponentId with
  | some sid =>
    match findComponentById f.schema.components sid with
    | none => .error s!"Component not found: {sid}"
    | some _ =>
      match dupFirstById sfx f.schema.components sid 0
          (collectAllKeys f.schema.components) with
      | none => .error s!"Cannot find parent of component {sid}"
      | some (cs', clone, _, _) =>
        .ok ({ f with schema := ⟨cs'⟩, version := f.version + 1 }, clone)
  | none =>
    match truthy? a.type with
    | none => .error "Either \"type\" or \"sourceComponentId\" is required"
    | some t =>
      if ¬ isSupportedType t then .error s!"Unsupported field type: {t}"
      else
        match resolveTargetCheck f.schema.components a.parentId with
        | .error e => .error e
        | .ok tgt =>
          let newId := generateComponentId t a.label (sfx 0)
          let d0 := applyBag { type := t, id := some newId } a.properties
          let d1 :=
            match a.label with
            | some l => { d0 with label := some l }
            | none => d0
          let d2 :=
            if isKeyedType t then
              { d1 with key := some (resolveKey f.schema.components a.key a.label t) }
            else d1
          let comp := Comp.mk d2 a.properties.components
          let cs' :=
            match tgt with
            | none => insertPosAdd f.schema.components comp a.position
            | some pid =>
              updateFirstById f.schema.components pid (fun c =>
                Comp.mk c.data
                  (some (insertPosAdd (c.children.getD []) comp a.position)))
          .ok ({ f with schema := ⟨cs'⟩, version := f.version + 1 }, comp)

/-! ## Delete and move -/

/-- `handleDeleteFormComponent` (and the identical `handleDelete` of
`modify_form_component`). -/
def handleDeleteFormComponent (f : FormState) (componentId : String) :
    Except String FormState :=
  match findComponentById f.schema.components componentId with
  | none => .error s!"Component not found: {componentId}"
  | some _ =>
    match removeFirstById f.schema.components componentId with
    | none => .error s!"Cannot find parent of component {componentId}"
    | some (_, cs') => .ok { f with schema := ⟨cs'⟩, version := f.version + 1 }

/-- `handleMoveFormComponent` (and the identical `handleMove` of
`modify_form_component`).  The handler splices the component out of its
parent array *before* resolving the destination, so a destination error
is thrown with the removal already applied; the second component of the
result is the state of the form after the call, error or not. -/
def handleMoveFormComponent (f : FormState) (componentId : String)
    (targetParentId : Option String) (position : Option Int) :
    Except String FormState × FormState :=
  match findComponentById f.schema.components componentId with
  | none => (.error s!"Component not found: {componentId}", f)
  | some _ =>
    match removeFirstById f.schema.components componentId with
    | none => (.error s!"Cannot find parent of component {componentId}", f)
    | some (comp, cs') =>
      match truthy? targetParentId with
      | none =>
        let f' : FormState :=
          { f with schema := ⟨insertPosMove cs' comp position⟩,
                   version := f.version + 1 }
        (.ok f', f')
      | some pid =>
        match findComponentById cs' pid with
        | none =>
          (.error s!"Target parent not found: {pid}", { f with schema := ⟨cs'⟩ })
        | some parent =>
          if isContainerType parent.data.type then
            let cs'' := updateFirstById cs' pid (fun c =>
              Comp.mk c.data
                (some (insertPosMove (c.children.getD []) comp position)))
            let f' : FormState :=
              { f with schema := ⟨cs''⟩, version := f.version + 1 }
            (.ok f', f')
          else
            (.error s!"Target {pid} is not a container", { f with schema := ⟨cs'⟩ })

/-! ## Type replacement (`replace_form_component`) -/

/-- The property migration of `replace_form_component`: universal props
(`id`, `type`, `label`, `description`, `conditional`, `layout`,
`properties`) are always kept; keyed-only props survive only when the new
type is keyed, options-only props only when it accepts options; anything
else is deleted. -/
def migrateData (d : CompData) (newType : String) : CompData :=
  { type := newType
    id := d.id
    label := d.label
    description := d.description
    conditional := d.conditional
    layout := d.layout
    properties := d.properties
    key := if isKeyedType newType then d.key else none
    defaultValue := if isKeyedType newType then d.defaultValue else none
    disabled := if isKeyedType newType then d.disabled else none
    readonly := if isKeyedType newType then d.readonly else none
    validate := if isKeyedType newType then d.validate else none
    values := if isOptionsType newType then d.values else none
    valuesKey := if isOptionsType newType then d.valuesKey else none
    valuesExpression := if isOptionsType newType then d.valuesExpression else none }

/-- The container-only bucket: the `components` array survives only when
the new type is a container. -/
def migrateComp (c : Comp) (newType : String) : Comp :=
  Comp.mk (migrateData c.data newType)
    (if isContainerType newType then c.children else none)

/-- `handleReplaceFormComponent`: validates, then migrates the component
in place.  No key is synthesized when the new type is keyed and no key
survived — the source leaves that to the validator. -/
def handleReplaceFormComponent (f : FormState) (componentId newType : String) :
    Except String FormState :=
  match findComponentById f.schema.components componentId with
  | none => .error s!"Component not found: {componentId}"
  | some comp =>
    if ¬ isSupportedType newType then .error s!"Unsupported field type: {newType}"
    else if comp.data.type = newType then
      .error s!"Component \"{componentId}\" is already type \"{newType}\""
    else
      .ok { f with
        schema := ⟨updateFirstById f.schema.components componentId
          (fun c => migrateComp c newType)⟩,
        version := f.version + 1 }

/-- The base key of `applyTypeChange`'s synthesis:
`(comp.label ?? newType).replaceAll(/[^\w]/g, '').toLowerCase() || newType`. -/
def applyTypeChangeBase (label : Option String) (newType : String) : String :=
  let stripped := lowerAll (stripNonWord (label.getD newType))
  if stripped = "" then newType else stripped

/-- `applyTypeChange` of `set_form_component_properties`: the same bucket
migration as `replace_form_component`, followed by synthesis of a fresh
disambiguated key when the new type is keyed and the migrated component
has no truthy key. -/
def applyTypeChangeForm (cs : List Comp) (componentId newType : String) :
    Except String (List Comp) :=
  match findComponentById cs componentId with
  | none => .error s!"Component not found: {componentId}"
  | some comp =>
    if ¬ isSupportedType newType then .error s!"Unsupported field type: {newType}"
    else if comp.data.type = newType then
      .error s!"Component \"{componentId}\" is already type \"{newType}\""
    else
      let migrated := migrateComp comp newType
      let cs' := updateFirstById cs componentId (fun c => migrateComp c newType)
      if isKeyedType newType && (truthy? migrated.data.key).isNone then
        let baseKey := applyTypeChangeBase migrated.data.label newType
        let k := disambig baseKey (collectAllKeys cs')
        .ok (updateFirstById cs' componentId
          (fun c => Comp.mk { c.data with key := some k } c.children))
      else .ok cs'

/-! ## Options sources (`set_form_options`) -/

/-- `handleSetFormOptions`: exactly one of `options` / `valuesKey` /
`valuesExpression` must be supplied; setting one clears the other two on
the component.  (In the source an option's `value` can also be checked
for `undefined`; the model's option values are always present.) -/
def handleSetFormOptions (f : FormState) (componentId : String)
    (options : Option (List FormOptionValue))
    (valuesKey valuesExpression : Option String) :
    Except String FormState :=
  match findComponentById f.schema.components componentId with
  | none => .error s!"Component not found: {componentId}"
  | some comp =>
    if ¬ isOptionsType comp.data.type then
      .error s!"Component type \"{comp.data.type}\" does not support options. Use one of: select, radio, checklist, taglist"
    else
      let sources := (if options.isSome then 1 else 0) +
        (if valuesKey.isSome then 1 else 0) +
        (if valuesExpression.isSome then 1 else 0)
      if sources = 0 then .error "Provide one of: options, valuesKey, or valuesExpression"
      else if sources > 1 then
        .error "Only one of options, valuesKey, or valuesExpression can be set at a time"
      else
        match options with
        | some opts =>
          if opts.any (fun o => o.label = "") then
            .error "Each option must have a label and value"
          else
            .ok { f with
              schema := ⟨updateFirstById f.schema.components componentId (fun c =>
                Comp.mk { c.data with values := some opts, valuesKey := none, valuesExpression := none } c.children)⟩,
              version := f.version + 1 }
        | none =>
          match valuesKey with
          | some vk =>
            .ok { f with
              schema := ⟨updateFirstById f.schema.components componentId (fun c =>
                Comp.mk { c.data with valuesKey := some vk, values := none, valuesExpression := none } c.children)⟩,
              version := f.version + 1 }
          | none =>
            .ok { f with
              schema := ⟨updateFirstById f.schema.components componentId (fun c =>
                Comp.mk { c.data with valuesExpression := valuesExpression, values := none, valuesKey := none } c.children)⟩,
              version := f.version + 1 }

/-! ## Validator (`src/validator.ts`) -/

inductive Severity : Type where
  | error : Severity
  | warning : Severity
deriving DecidableEq, Repr

structure ValidationIssue where
  severity : Severity
  componentId : Option String := none
  message : String
  suggestion : Option String := none
deriving DecidableEq, Repr

structure ValidationResult where
  valid : Bool
  issues : List ValidationIssue
deriving DecidableEq, Repr

/-- JS `Map.get` over the seen-maps (first binding wins — entries are
only ever inserted once). -/
def lookupSeen (seen : List (String × String)) (k : String) : Option String :=
  (seen.find? (fun p => p.1 = k)).map (·.2)

/-- `checkType`: a falsy `type` is an error, an unsupported one a
warning. -/
def checkType (d : CompData) (path : String) : Option ValidationIssue :=
  if d.type = "" then
    some { severity := .error, componentId := d.id,
           message := s!"Component at {path} is missing \"type\"",
           suggestion := some "Add a valid type property" }
  else if ¬ isSupportedType d.type then
    some { severity := .warning, componentId := d.id,
           message := s!"Unknown field type \"{d.type}\" on {d.id.getD path}",
           suggestion := some "Use one of the supported field types" }
  else none

/-- `checkDuplicateId`: skip falsy ids; report an error on a repeat,
record the path otherwise. -/
def checkDuplicateId (d : CompData) (path : String)
    (seenIds : List (String × String)) :
    Option ValidationIssue × List (String × String) :=
  match truthy? d.id with
  | none => (none, seenIds)
  | some i =>
    match lookupSeen seenIds i with
    | some existing =>
      (some { severity := .error, componentId := d.id,
              message := s!"Duplicate component ID \"{i}\" (also at {existing})",
              suggestion := some "Each component must have a unique id" }, seenIds)
    | none => (none, seenIds ++ [(i, path)])

/-- `checkKeyPresence`: a keyed type without a truthy key is an error. -/
def checkKeyPresence (d : CompData) : Option ValidationIssue :=
  if isKeyedType d.type && (truthy? d.key).isNone then
    some { severity := .error, componentId := d.id,
           message := s!"Keyed field type \"{d.type}\" at {d.id.getD d.type} is missing \"key\"",
           suggestion := some "Add a key property to bind this field to data" }
  else none

/-- `checkDuplicateKey`: skip falsy keys; report an error on a repeat,
record otherwise. -/
def checkDuplicateKey (d : CompData) (seenKeys : List (String × String)) :
    Option ValidationIssue × List (String × String) :=
  match truthy? d.key with
  | none => (none, seenKeys)
  | some k =>
    match lookupSeen seenKeys k with
    | some existing =>
      (some { severity := .error, componentId := d.id,
              message := s!"Duplicate key \"{k}\" on {d.id.getD d.type} (also at {existing})",
              suggestion := some "Each keyed component must have a unique key" }, seenKeys)
    | none => (none, seenKeys ++ [(k, d.id.getD d.type)])

/-- One `walkComponents` step for a single node's data, returning the
issues in source order. -/
def checkNode (d : CompData) (path : String)
    (seenKeys seenIds : List (String × String)) :
    List ValidationIssue × List (String × String) × List (String × String) :=
  let tIssue := checkType d path
  let idRes := checkDuplicateId d path seenIds
  let kpIssue := checkKeyPresence d
  let kdRes := checkDuplicateKey d seenKeys
  (tIssue.toList ++ idRes.1.toList ++ kpIssue.toList ++ kdRes.1.toList,
    kdRes.2, idRes.2)

/-- `walkComponents`: depth-first walk accumulating issues and the
seen-key / seen-id maps; `i` is the index used in the path strings. -/
def walkComponents : List Comp → List ValidationIssue →
    List (String × String) → List (String × String) → String → Nat →
    List ValidationIssue × List (String × String) × List (String × String)
  | [], issues, seenKeys, seenIds, _, _ => (issues, seenKeys, seenIds)
  | Comp.mk d none :: rest, issues, seenKeys, seenIds, parentPath, i =>
    let path := s!"{parentPath}[{i}]"
    let r := checkNode d path seenKeys seenIds
    walkComponents rest (issues ++ r.1) r.2.1 r.2.2 parentPath (i + 1)
  | Comp.mk d (some cs) :: rest, issues, seenKeys, seenIds, parentPath, i =>
    let path := s!"{parentPath}[{i}]"
    let r := checkNode d path seenKeys seenIds
    let rc := walkComponents cs (issues ++ r.1) r.2.1 r.2.2 (path ++ ".components") 0
    walkComponents rest rc.1 rc.2.1 rc.2.2 parentPath (i + 1)

/-- `validateFormSchema` on a schema that has a `components` array (the
null-schema and missing-array branches both return `valid := false`
together with an error issue and never reach the walk). -/
def validateFormSchema (s : FormSchema) : ValidationResult :=
  let r := walkComponents s.components [] [] [] "components" 0
  { valid := ¬ r.1.any (fun i => i.severity = Severity.error), issues := r.1 }

/-! ## Two-column layout (`handlers/core/auto-layout-form.ts`) -/

/-- The fixed full-width type set of the layout strategies. -/
def FULL_WIDTH_TYPES : List String :=
  ["text", "html", "separator", "spacer", "table", "documentPreview",
    "image", "group", "dynamiclist", "iframe", "button"]

/-- `comp.layout.columns = w; delete comp.layout.row` (after the
`comp.layout ??= {}` initialisation — `FormLayout` has no other fields,
so the merge is a replacement). -/
def setFullWidthLayout (d : CompData) (w : Nat) : CompData :=
  { d with layout := some { columns := some (w : Int), row := none } }

/-- Assign half-width columns and a shared row id to one half of a pair. -/
def setPairLayout (d : CompData) (cols : Nat) (row : String) : CompData :=
  { d with layout := some { columns := some (cols : Int), row := some row } }

/-- `layoutTwoColumn`'s loop.  `pend` is the `pendingPair` component
together with the row id that was generated when it became pending;
`n` indexes the row-id oracle `rows`.  Returns the re-laid-out forest,
the number of components assigned (the source's `count`), and the next
row-id index. -/
def twoColList (rows : Nat → String) (w : Nat) :
    List Comp → Nat → Option (Comp × String) → List Comp × Nat × Nat
  | [], n, none => ([], 0, n)
  | [], n, some (p, _) => ([Comp.mk (setFullWidthLayout p.data w) p.children], 1, n)
  | Comp.mk d none :: rest, n, pend =>
    if FULL_WIDTH_TYPES.contains d.type then
      let flushed :=
        match pend with
        | some (p, _) => [Comp.mk (setFullWidthLayout p.data w) p.children]
        | none => []
      let c' := Comp.mk (setFullWidthLayout d w) none
      let r := twoColList rows w rest n none
      (flushed ++ c' :: r.1, flushed.length + 1 + r.2.1, r.2.2)
    else
      match pend with
      | none => twoColList rows w rest (n + 1) (some (Comp.mk d none, rows n))
      | some (p, row) =>
        let p' := Comp.mk (setPairLayout p.data (w / 2) row) p.children
        let c' := Comp.mk (setPairLayout d (w - w / 2) row) none
        let r := twoColList rows w rest n none
        (p' :: c' :: r.1, r.2.1 + 2, r.2.2)
  | Comp.mk d (some l) :: rest, n, pend =>
    if FULL_WIDTH_TYPES.contains d.type then
      let flushed :=
        match pend with
        | some (p, _) => [Comp.mk (setFullWidthLayout p.data w) p.children]
        | none => []
      let rl := twoColList rows w l n none
      let c' := Comp.mk (setFullWidthLayout d w) (some rl.1)
      let r := twoColList rows w rest rl.2.2 none
      (flushed ++ c' :: r.1, flushed.length + 1 + rl.2.1 + r.2.1, r.2.2)
    else
      match pend with
      | none => twoColList rows w rest (n + 1) (some (Comp.mk d (some l), rows n))
      | some (p, row) =>
        let p' := Comp.mk (setPairLayout p.data (w / 2) row) p.children
        let c' := Comp.mk (setPairLayout d (w - w / 2) row) (some l)
        let r := twoColList rows w rest n none
        (p' :: c' :: r.1, r.2.1 + 2, r.2.2)

/-- `layoutTwoColumn(components, gridWidth)` with the row-id oracle. -/
def layoutTwoColumn (rows : Nat → String) (cs : List Comp) (w : Nat) :
    List Comp × Nat × Nat :=
  twoColList rows w cs 0 none

/-! ## Undo / redo history (`handlers/core/form-history.ts`) -/

/-- The per-form pair of snapshot stacks.  The stack top is the list head
(the source pushes and pops at the array end and evicts the oldest entry
with `shift()` from the front, which here is `dropLast`). -/
structure FormHistory where
  undoStack : List FormSchema := []
  redoStack : List FormSchema := []

def MAX_HISTORY : Nat := 50

/-- `pushSnapshot`: deep-copy the schema onto the undo stack (deep copy
is the identity on pure values), evict beyond `MAX_HISTORY`, clear the
redo stack. -/
def pushSnapshot (h : FormHistory) (s : FormSchema) : FormHistory :=
  let u := s :: h.undoStack
  { undoStack := if MAX_HISTORY < u.length then u.dropLast else u
    redoStack := [] }

inductive HistoryAction : Type where
  | undo : HistoryAction
  | redo : HistoryAction

/-- `handleFormHistory`: `undo` pushes the current schema onto redo, pops
the undo stack into the form and bumps the version; `redo` mirrors it; an
empty respective stack is a user-facing error. -/
def handleFormHistory (f : FormState) (h : FormHistory) :
    HistoryAction → Except String (FormState × FormHistory)
  | .undo =>
    match h.undoStack with
    | [] => .error "Nothing to undo"
    | previous :: rest =>
      .ok ({ f with schema := previous, version := f.version + 1 },
        { undoStack := rest, redoStack := f.schema :: h.redoStack })
  | .redo =>
    match h.redoStack with
    | [] => .error "Nothing to redo"
    | next :: rest =>
      .ok ({ f with schema := next, version := f.version + 1 },
        { undoStack := f.schema :: h.undoStack, redoStack := rest })

/-! ## Batch engine (`handlers/core/batch-form-operations.ts`)

The batch executes operations against one form through the same dispatch
used for direct calls.  The operations modelled are the embedded
single-form mutations; a malformed record (no `tool` string), a nested
batch and an unregistered tool name are the failure shapes the source
checks for explicitly. -/

inductive BatchOp : Type where
  | addComponent (a : AddArgs) (sfx : Nat → String) : BatchOp
  | moveComponent (componentId : String) (targetParentId : Option String)
      (position : Option Int) : BatchOp
  | deleteComponent (componentId : String) : BatchOp
  | replaceComponent (componentId newType : String) : BatchOp
  | setOptions (componentId : String) (options : Option (List FormOptionValue))
      (valuesKey valuesExpression : Option String) : BatchOp
  | nestedBatch : BatchOp
  | unknownTool (name : String) : BatchOp
  | malformed : BatchOp

/-- One operation through `dispatchToolCall`.  The malformed / nested
cases are short-circuited by the batch loop itself in the source, with
the same rollback result as a dispatch error, so they are uniformly
errors here. -/
def dispatchOp (f : FormState) : BatchOp → Except String FormState
  | .addComponent a sfx => (handleAddFormComponent f a sfx).map Prod.fst
  | .moveComponent cid t p => (handleMoveFormComponent f cid t p).1
  | .deleteComponent cid => handleDeleteFormComponent f cid
  | .replaceComponent cid t => handleReplaceFormComponent f cid t
  | .setOptions cid o k e => handleSetFormOptions f cid o k e
  | .nestedBatch => .error "Cannot nest batch_form_operations"
  | .unknownTool n => .error s!"Unknown tool: {n}"
  | .malformed => .error "Each operation must have a \"tool\" string property"

structure BatchReport where
  success : Bool
  completedOperations : Nat
  rolledBack : Bool
deriving DecidableEq, Repr

/-- The batch loop: on the first failure restore the snapshot schema and
version and report `completedOperations` = number of operations that
succeeded, with `rolledBack := true`. -/
def batchLoop (snapshot : FormSchema) (snapVersion : Nat) :
    FormState → Nat → List BatchOp → BatchReport × FormState
  | f, done, [] =>
    ({ success := true, completedOperations := done, rolledBack := false }, f)
  | f, done, op :: rest =>
    match dispatchOp f op with
    | .ok f' => batchLoop snapshot snapVersion f' (done + 1) rest
    | .error _ =>
      ({ success := false, completedOperations := done, rolledBack := true },
        { f with schema := snapshot, version := snapVersion })

/-- `handleBatchFormOperations`: snapshot, then run the loop. -/
def handleBatchFormOperations (f : FormState) (ops : List BatchOp) :
    Except String (BatchReport × FormState) :=
  if ops.isEmpty then .error "operations must be a non-empty array"
  else .ok (batchLoop f.schema f.version f 0 ops)

/-- `runOps`: the states a batch's operations step through while they
keep succeeding (`none` as soon as one fails). -/
def runOps : FormState → List BatchOp → Option FormState
  | f, [] => some f
  | f, op :: rest =>
    match dispatchOp f op with
    | .ok f' => runOps f' rest
    | .error _ => none

/-! ## Test fixtures -/

/-- A keyed textfield `a`. -/
def tfa : Comp := Comp.mk { type := "textfield", id := some "a", key := some "k1" } none

/-- A keyed textfield `b`. -/
def tfb : Comp := Comp.mk { type := "textfield", id := some "b", key := some "k2" } none

/-- A two-field form. -/
def twoFieldForm : FormState := { schema := ⟨[tfa, tfb]⟩ }

/-! # Claims -/

@[simp] theorem toString_string (s : String) : toString s = s := rfl

/-- C1: the specification claims that a move whose destination does not
exist or is not a container fails with the component tree untouched.  The
code refutes this: `handleMoveFormComponent` (likewise `handleMove` of
`modify_form_component`) splices the component out of its source array
before resolving the destination, and the destination errors are thrown
without reinserting it.  At the failing input the error is raised *and*
the moved component has vanished from the tree. -/
theorem move_invalid_destination_commits_removal :
    ((handleMoveFormComponent twoFieldForm "a" (some "b") none).1 =
        .error "Target b is not a container" ∧
      (handleMoveFormComponent twoFieldForm "a" (some "b") none).2.schema.components =
        [tfb] ∧
      findComponentById
        (handleMoveFormComponent twoFieldForm "a" (some "b") none).2.schema.components
        "a" = none) ∧
    ((handleMoveFormComponent twoFieldForm "a" (some "zz") none).1 =
        .error "Target parent not found: zz" ∧
      findComponentById
        (handleMoveFormComponent twoFieldForm "a" (some "zz") none).2.schema.components
        "a" = none) := by
  refine ⟨⟨?_, ?_, ?_⟩, ?_, ?_⟩ <;>
    simp [handleMoveFormComponent, findComponentById, removeFirstById, twoFieldForm,
      tfa, tfb, truthy?, isContainerType, CONTAINER_FIELD_TYPES]

/-- A form whose only component has an unknown type. -/
def unknownTypeForm : FormSchema :=
  ⟨[Comp.mk { type := "weird", id := some "w" } none]⟩

/-- C9: the validator's verdict is `valid` exactly when the issue list
contains no error-severity issue; warning-only issue lists (such as the
unknown-component-type warning) leave the schema valid. -/
theorem validator_valid_iff_no_error (s : FormSchema) :
    ((validateFormSchema s).valid = true ↔
      ∀ i ∈ (validateFormSchema s).issues, i.severity ≠ Severity.error) ∧
    ((validateFormSchema unknownTypeForm).valid = true ∧
      (validateFormSchema unknownTypeForm).issues.length = 1 ∧
      ∀ i ∈ (validateFormSchema unknownTypeForm).issues,
        i.severity = Severity.warning) := by
  constructor
  · simp [validateFormSchema, List.any_eq_true]
  · refine ⟨?_, ?_, ?_⟩ <;>
      simp [validateFormSchema, walkComponents, checkNode, checkType,
        checkDuplicateId, checkKeyPresence, checkDuplicateKey, lookupSeen,
        unknownTypeForm, truthy?, isSupportedType, SUPPORTED_FIELD_TYPES,
        INPUT_FIELD_TYPES, SELECTION_FIELD_TYPES, PRESENTATION_FIELD_TYPES,
        CONTAINER_FIELD_TYPES, ACTION_FIELD_TYPES, isKeyedType, KEYED_FIELD_TYPES]

/-- C6: push a snapshot of schema `S`, mutate the form to schema `S'` at
any version `v'`; `undo` restores `S` and bumps the version, a following
`redo` restores `S'` and bumps it again; `undo` on an empty undo stack
and `redo` on an empty redo stack raise user-facing errors rather than
succeeding. -/
theorem history_undo_redo_roundtrip (f : FormState) (h : FormHistory)
    (S' : FormSchema) (v' : Nat) :
    (handleFormHistory { f with schema := S', version := v' }
        (pushSnapshot h f.schema) .undo =
      .ok ({ f with schema := f.schema, version := v' + 1 },
        { undoStack := (pushSnapshot h f.schema).undoStack.tail,
          redoStack := [S'] })) ∧
    (handleFormHistory { f with schema := f.schema, version := v' + 1 }
        { undoStack := (pushSnapshot h f.schema).undoStack.tail,
          redoStack := [S'] } .redo =
      .ok ({ f with schema := S', version := v' + 2 },
        { undoStack := f.schema :: (pushSnapshot h f.schema).undoStack.tail,
          redoStack := [] })) ∧
    (∀ (g : FormState) (r : List FormSchema),
      handleFormHistory g { undoStack := [], redoStack := r } .undo =
        .error "Nothing to undo") ∧
    (∀ (g : FormState) (u : List FormSchema),
      handleFormHistory g { undoStack := u, redoStack := [] } .redo =
        .error "Nothing to redo") := by
  have hstack : (pushSnapshot h f.schema).undoStack =
      f.schema :: (pushSnapshot h f.schema).undoStack.tail := by
    simp only [pushSnapshot]
    by_cases hl : MAX_HISTORY < (f.schema :: h.undoStack).length
    · simp only [hl, if_true]
      cases hu : h.undoStack with
      | nil =>
        exfalso
        rw [hu] at hl
        simp [MAX_HISTORY] at hl
      | cons x xs => simp [hu, List.dropLast]
    · have hl' : ¬ MAX_HISTORY < h.undoStack.length + 1 := by simpa using hl
      simp [hl']
  refine ⟨?_, ?_, ?_, ?_⟩
  · simp only [handleFormHistory]
    rw [hstack]
    simp [pushSnapshot]
  · simp only [handleFormHistory]
  · intro g r; simp [handleFormHistory]
  · intro g u; simp [handleFormHistory]

/-! ## C5 — two-column layout around a full-width component -/

def cexPlain1 : Comp :=
  Comp.mk { type := "textfield", id := some "p1", key := some "x" } none

def cexFull : Comp := Comp.mk { type := "text", id := some "fw" } none

def cexPlain2 : Comp :=
  Comp.mk { type := "textfield", id := some "p2", key := some "y" } none

def rowsOracle : Nat → String := fun n => "Row_" ++ Nat.repr n

/-- C5 counterexample: on `[plain, full-width, plain]` with grid width 16
the two-column strategy gives *all three* components `columns = 16` with
no row — the full-width component flushes the pending pair, so the claim
that the two plain fields share one generated row with columns summing to
16 is false at this input. -/
theorem two_column_flush_cex :
    ((layoutTwoColumn rowsOracle [cexPlain1, cexFull, cexPlain2] 16).1.map
        (fun c => c.data.layout) =
      [some { columns := some 16, row := none },
        some { columns := some 16, row := none },
        some { columns := some 16, row := none }]) ∧
    ¬ ∃ (row : String) (a b : Int),
        ((layoutTwoColumn rowsOracle [cexPlain1, cexFull, cexPlain2] 16).1.map
          (fun c => c.data.layout) =
        [some { columns := some a, row := some row },
          some { columns := some 16, row := none },
          some { columns := some b, row := some row }]) ∧ a + b = 16 := by
  have h1 : (layoutTwoColumn rowsOracle [cexPlain1, cexFull, cexPlain2] 16).1.map
      (fun c => c.data.layout) =
      [some { columns := some 16, row := none },
        some { columns := some 16, row := none },
        some { columns := some 16, row := none }] := by
    simp [layoutTwoColumn, twoColList, cexPlain1, cexFull, cexPlain2,
      FULL_WIDTH_TYPES, setFullWidthLayout, setPairLayout]
  refine ⟨h1, ?_⟩
  rintro ⟨row, a, b, heq, -⟩
  rw [h1] at heq
  simp at heq

/-- C5 amended: with one full-width-type component between two
non-full-width components, the two-column strategy flushes the pending
pair at the full-width component, so *each* of the three gets its own
full-width row: `columns = W` and no `row` — the plain fields never share
a row across a full-width separator. -/
theorem two_column_full_width_between_plain (rows : Nat → String) (w : Nat)
    (c₁ c₂ c₃ : Comp)
    (h₁ : FULL_WIDTH_TYPES.contains c₁.data.type = false)
    (h₂ : FULL_WIDTH_TYPES.contains c₂.data.type = true)
    (h₃ : FULL_WIDTH_TYPES.contains c₃.data.type = false) :
    ∀ c ∈ (layoutTwoColumn rows [c₁, c₂, c₃] w).1,
      c.data.layout = some { columns := some (w : Int), row := none } := by
  obtain ⟨d₁, ch₁⟩ := c₁
  obtain ⟨d₂, ch₂⟩ := c₂
  obtain ⟨d₃, ch₃⟩ := c₃
  simp only [Comp.data_mk] at h₁ h₂ h₃
  have h₁' : d₁.type ∉ FULL_WIDTH_TYPES := by simpa using h₁
  have h₂' : d₂.type ∈ FULL_WIDTH_TYPES := by simpa using h₂
  have h₃' : d₃.type ∉ FULL_WIDTH_TYPES := by simpa using h₃
  cases ch₁ <;> cases ch₂ <;> cases ch₃ <;>
    simp [layoutTwoColumn, twoColList, h₁', h₂', h₃', setFullWidthLayout]

/-- Witness for the amended C5 theorem at a concrete tree. -/
theorem two_column_full_width_between_plain_witness :
    (FULL_WIDTH_TYPES.contains cexPlain1.data.type = false ∧
      FULL_WIDTH_TYPES.contains cexFull.data.type = true ∧
      FULL_WIDTH_TYPES.contains cexPlain2.data.type = false) ∧
    ∀ c ∈ (layoutTwoColumn rowsOracle [cexPlain1, cexFull, cexPlain2] 16).1,
      c.data.layout = some { columns := some (16 : Int), row := none } :=
  ⟨⟨by decide, by decide, by decide⟩,
    two_column_full_width_between_plain rowsOracle 16 cexPlain1 cexFull cexPlain2
      (by decide) (by decide) (by decide)⟩

/-! ## C7 — mutual exclusivity of the option sources -/

/-- A component carries at most one of `values` / `valuesKey` /
`valuesExpression`. -/
def ExclusiveSources (d : CompData) : Prop :=
  (if d.values.isSome then 1 else 0) + (if d.valuesKey.isSome then 1 else 0) +
    (if d.valuesExpression.isSome then 1 else 0) ≤ 1

instance (d : CompData) : Decidable (ExclusiveSources d) := by
  unfold ExclusiveSources; infer_instance

/-- The tree-wide invariant: every component carries at most one option
source. -/
def OptionSourcesExclusive (cs : List Comp) : Prop :=
  ∀ c ∈ allCompsList cs, ExclusiveSources c.data

theorem allCompsList_cons (c : Comp) (rest : List Comp) :
    allCompsList (c :: rest) =
      c :: ((match c.children with
        | some cs => allCompsList cs
        | none => []) ++ allCompsList rest) := by
  obtain ⟨d, ch⟩ := c
  cases ch <;> simp [allCompsList]

/-- Every node of the updated forest has the data of an original node or
of the `g`-image of one (the update rebuilds container ancestors with new
children but keeps their data), provided `g` does not touch children. -/
theorem data_allCompsList_updateFirstById (g : Comp → Comp)
    (hg : ∀ c, (g c).children = c.children) :
    ∀ (cs : List Comp) (i : String) (x : Comp),
      x ∈ allCompsList (updateFirstById cs i g) →
      ∃ c, c ∈ allCompsList cs ∧ (x.data = c.data ∨ x.data = (g c).data)
  | [], i, x => by
    intro hx
    simp [updateFirstById, allCompsList] at hx
  | Comp.mk d none :: rest, i, x => by
    intro hx
    by_cases hid : d.id = some i
    · rw [updateFirstById, if_pos hid, allCompsList_cons, hg] at hx
      simp only [Comp.children_mk, List.mem_cons] at hx
      rcases hx with hx | hx
      · exact ⟨Comp.mk d none, by rw [allCompsList_cons]; simp, Or.inr (by rw [hx])⟩
      · simp only [List.nil_append] at hx
        exact ⟨x, by rw [allCompsList_cons]; simp [hx], Or.inl rfl⟩
    · rw [updateFirstById, if_neg hid, allCompsList_cons] at hx
      simp only [Comp.children_mk, List.nil_append, List.mem_cons] at hx
      rcases hx with hx | hx
      · exact ⟨Comp.mk d none, by rw [allCompsList_cons]; simp, Or.inl (by rw [hx])⟩
      · obtain ⟨c, hc, hd⟩ :=
          data_allCompsList_updateFirstById g hg rest i x hx
        exact ⟨c, by rw [allCompsList_cons]; simp; right; simpa using hc, hd⟩
  | Comp.mk d (some cs₀) :: rest, i, x => by
    intro hx
    by_cases hid : d.id = some i
    · rw [updateFirstById, if_pos hid, allCompsList_cons, hg] at hx
      simp only [Comp.children_mk, List.mem_cons] at hx
      rcases hx with hx | hx
      · exact ⟨Comp.mk d (some cs₀), by rw [allCompsList_cons]; simp,
          Or.inr (by rw [hx])⟩
      · rw [List.mem_append] at hx
        rcases hx with hx | hx
        · exact ⟨x, by rw [allCompsList_cons]; simp [hx], Or.inl rfl⟩
        · exact ⟨x, by rw [allCompsList_cons]; simp [hx], Or.inl rfl⟩
    · cases hfound : findComponentById cs₀ i with
      | some c₀ =>
        rw [updateFirstById, if_neg hid, hfound] at hx
        simp only [allCompsList_cons, Comp.children_mk, List.mem_cons] at hx
        rcases hx with hx | hx
        · exact ⟨Comp.mk d (some cs₀), by rw [allCompsList_cons]; simp,
            Or.inl (by rw [hx]; rfl)⟩
        · rw [List.mem_append] at hx
          rcases hx with hx | hx
          · obtain ⟨c, hc, hd⟩ :=
              data_allCompsList_updateFirstById g hg cs₀ i x hx
            exact ⟨c, by rw [allCompsList_cons]; simp; right; left; simpa using hc,
              hd⟩
          · exact ⟨x, by rw [allCompsList_cons]; simp [hx], Or.inl rfl⟩
      | none =>
        rw [updateFirstById, if_neg hid, hfound] at hx
        simp only [allCompsList_cons, Comp.children_mk, List.mem_cons] at hx
        rcases hx with hx | hx
        · exact ⟨Comp.mk d (some cs₀), by rw [allCompsList_cons]; simp,
            Or.inl (by rw [hx])⟩
        · rw [List.mem_append] at hx
          rcases hx with hx | hx
          · exact ⟨x, by rw [allCompsList_cons]; simp [hx], Or.inl rfl⟩
          · obtain ⟨c, hc, hd⟩ :=
              data_allCompsList_updateFirstById g hg rest i x hx
            exact ⟨c, by rw [allCompsList_cons]; simp; right; right; simpa using hc,
              hd⟩

/-- C7 amended: the option-setting path does enforce the exclusivity — a
successful `set_form_options` leaves every component of the form with at
most one of `values` / `valuesKey` / `valuesExpression`, provided that
held before.  (The counterexample shows `add_form_component`'s free-form
properties bag can create a component carrying several sources, so the
invariant is not maintained by *every* mutation.) -/
theorem set_form_options_preserves_exclusivity (f : FormState) (cid : String)
    (o : Option (List FormOptionValue)) (vk ve : Option String) (f' : FormState)
    (hinv : OptionSourcesExclusive f.schema.components)
    (hok : handleSetFormOptions f cid o vk ve = .ok f') :
    OptionSourcesExclusive f'.schema.components := by
  unfold handleSetFormOptions at hok
  dsimp only [] at hok
  repeat' split at hok
  all_goals first
    | exact Except.noConfusion hok
    | exact absurd ‹Option.isSome none = true› (by simp)
    | · injection hok with hok
        subst hok
        intro x hx
        obtain ⟨c, hc, hd⟩ := data_allCompsList_updateFirstById _
          (by intro c; rfl) _ _ _ hx
        rcases hd with hd | hd
        · unfold ExclusiveSources
          rw [hd]
          exact hinv c hc
        · simp only [Comp.data_mk] at hd
          rcases hve : ve with _ | v <;> simp [ExclusiveSources, hd, hve]

/-- A one-select form. -/
def selectForm : FormState :=
  { schema := ⟨[Comp.mk { type := "select", id := some "s1", key := some "sel" } none]⟩ }

/-- The select component after options are set. -/
def selectCompAfter : Comp :=
  Comp.mk
    { type := "select", id := some "s1", key := some "sel",
      values := some [⟨"A", "a"⟩], valuesKey := none, valuesExpression := none }
    none

/-- The one-select form after `set_form_options`. -/
def selectFormAfter : FormState :=
  { name := none, schema := ⟨[selectCompAfter]⟩, version := 1 }

/-- Witness for the amended C7 theorem: a concrete successful
`set_form_options` call on a form satisfying the invariant. -/
theorem set_form_options_preserves_exclusivity_witness :
    OptionSourcesExclusive selectFormAfter.schema.components :=
  set_form_options_preserves_exclusivity selectForm "s1" (some [⟨"A", "a"⟩])
    none none selectFormAfter
    (by
      intro c hc
      simp only [selectForm, allCompsList_cons, Comp.children_mk, allCompsList,
        List.append_nil, List.mem_cons, List.not_mem_nil, or_false] at hc
      rw [hc]
      decide)
    (by
      simp [handleSetFormOptions, selectForm, selectFormAfter, selectCompAfter,
        findComponentById, isOptionsType, OPTIONS_FIELD_TYPES, updateFirstById])

/-- The double-source properties bag. -/
def addDoubleArgs : AddArgs :=
  { type := some "select",
    properties := { values := some [⟨"A", "a"⟩], valuesKey := some "vk" } }

def oneSfx : Nat → String := fun _ => "ffff"

/-- The component the double-source add produces. -/
def addDoubleComp : Comp :=
  Comp.mk
    { type := "select", id := some "Select_ffff", key := some "select",
      values := some [⟨"A", "a"⟩], valuesKey := some "vk" }
    none

/-- C7 counterexample: `add_form_component` spreads the free-form
properties bag into the new component with no exclusivity check, so a
single successful add yields a component carrying both `values` and
`valuesKey` — the claimed invariant fails after this mutation. -/
theorem add_bag_breaks_exclusivity_cex :
    match handleAddFormComponent twoFieldForm addDoubleArgs oneSfx with
    | .ok (f', c) => c.data.values.isSome = true ∧ c.data.valuesKey.isSome = true ∧
        ¬ OptionSourcesExclusive f'.schema.components
    | .error _ => False := by
  have hkeys : collectAllKeys twoFieldForm.schema.components = ["k1", "k2"] := by
    simp [twoFieldForm, tfa, tfb, collectAllKeys]
  have hok : handleAddFormComponent twoFieldForm addDoubleArgs oneSfx =
      .ok ({ name := none, schema := ⟨[tfa, tfb, addDoubleComp]⟩, version := 1 },
        addDoubleComp) := by
    unfold handleAddFormComponent resolveKey
    rw [hkeys]
    rfl
  rw [hok]
  refine ⟨rfl, rfl, ?_⟩
  intro h
  have := h addDoubleComp (by simp [allCompsList, tfa, tfb, addDoubleComp])
  simp [ExclusiveSources, addDoubleComp] at this

/-! ## Cons normal forms for the tree recursions -/

theorem findComponentById_cons (c : Comp) (rest : List Comp) (i : String) :
    findComponentById (c :: rest) i =
      if c.data.id = some i then some c
      else
        match c.children with
        | some cs =>
          (match findComponentById cs i with
            | some found => some found
            | none => findComponentById rest i)
        | none => findComponentById rest i := by
  obtain ⟨d, ch⟩ := c
  cases ch <;> simp [findComponentById]

theorem updateFirstById_cons (c : Comp) (rest : List Comp) (i : String)
    (g : Comp → Comp) :
    updateFirstById (c :: rest) i g =
      if c.data.id = some i then g c :: rest
      else
        match c.children with
        | some cs =>
          (match findComponentById cs i with
            | some _ => Comp.mk c.data (some (updateFirstById cs i g)) :: rest
            | none => c :: updateFirstById rest i g)
        | none => c :: updateFirstById rest i g := by
  obtain ⟨d, ch⟩ := c
  cases ch <;> simp [updateFirstById]

theorem collectAllIds_cons (c : Comp) (rest : List Comp) :
    collectAllIds (c :: rest) =
      (match truthy? c.data.id with | some i => [i] | none => []) ++
        (match c.children with | some cs => collectAllIds cs | none => []) ++
        collectAllIds rest := by
  obtain ⟨d, ch⟩ := c
  cases ch <;> simp [collectAllIds]

theorem collectAllKeys_cons (c : Comp) (rest : List Comp) :
    collectAllKeys (c :: rest) =
      (match truthy? c.data.key with | some k => [k] | none => []) ++
        (match c.children with | some cs => collectAllKeys cs | none => []) ++
        collectAllKeys rest := by
  obtain ⟨d, ch⟩ := c
  cases ch <;> simp [collectAllKeys]

/-- Updating the first node with a given id leaves that node the first
match, and `find` returns its image — provided the update keeps ids. -/
theorem findComponentById_updateFirstById (g : Comp → Comp)
    (hg : ∀ c, (g c).data.id = c.data.id) :
    ∀ (cs : List Comp) (i : String),
      findComponentById (updateFirstById cs i g) i =
        (findComponentById cs i).map g
  | [], i => by simp [findComponentById, updateFirstById]
  | Comp.mk d none :: rest, i => by
    by_cases hid : d.id = some i
    · rw [updateFirstById, if_pos hid, findComponentById_cons]
      simp [hg, Comp.data_mk, hid, findComponentById]
    · rw [updateFirstById, if_neg hid, findComponentById_cons, findComponentById_cons]
      simp only [Comp.data_mk, Comp.children_mk, if_neg hid]
      exact findComponentById_updateFirstById g hg rest i
  | Comp.mk d (some cs₀) :: rest, i => by
    by_cases hid : d.id = some i
    · rw [updateFirstById, if_pos hid, findComponentById_cons]
      simp [hg, Comp.data_mk, hid, findComponentById]
    · cases hfound : findComponentById cs₀ i with
      | some c₀ =>
        rw [updateFirstById, if_neg hid, hfound, findComponentById_cons]
        simp only [Comp.data_mk, Comp.children_mk, if_neg hid]
        rw [findComponentById_updateFirstById g hg cs₀ i, hfound,
          findComponentById_cons]
        simp [if_neg hid, hfound]
      | none =>
        rw [updateFirstById, if_neg hid, hfound, findComponentById_cons]
        simp only [Comp.data_mk, Comp.children_mk, if_neg hid, hfound]
        rw [findComponentById_cons]
        simp only [Comp.data_mk, Comp.children_mk, if_neg hid, hfound]
        exact findComponentById_updateFirstById g hg rest i

/-! ## C4 — key synthesis on type replacement -/

/-- A presentation `text` component with a label and no key. -/
def textComp : Comp :=
  Comp.mk { type := "text", id := some "t1", label := some "Name" } none

def textForm : FormState := { schema := ⟨[textComp]⟩ }

/-- What `replace_form_component` makes of it: type changed, no key. -/
def textCompReplaced : Comp :=
  Comp.mk { type := "textfield", id := some "t1", label := some "Name" } none

/-- C4 counterexample: replacing a keyless `text` component's type with
the keyed type `textfield` through `replace_form_component` succeeds and
leaves the component with *no* key — the handler performs no key
synthesis (its comment defers the problem to the validator), refuting the
claim that a fresh key is synthesized exactly as in Add. -/
theorem replace_no_key_synthesis_cex :
    isKeyedType "textfield" = true ∧
    handleReplaceFormComponent textForm "t1" "textfield" =
      .ok { name := none, schema := ⟨[textCompReplaced]⟩, version := 1 } ∧
    findComponentById [textCompReplaced] "t1" = some textCompReplaced ∧
    textCompReplaced.data.key = none := by
  refine ⟨by decide, ?_, ?_, rfl⟩
  · simp [handleReplaceFormComponent, textForm, textComp, textCompReplaced,
      findComponentById, updateFirstById, migrateComp, migrateData,
      isSupportedType, SUPPORTED_FIELD_TYPES, INPUT_FIELD_TYPES,
      SELECTION_FIELD_TYPES, PRESENTATION_FIELD_TYPES, CONTAINER_FIELD_TYPES,
      ACTION_FIELD_TYPES, isKeyedType, KEYED_FIELD_TYPES, isOptionsType,
      OPTIONS_FIELD_TYPES, isContainerType]
  · simp [findComponentById, textCompReplaced]

/-- C4 amended: `replace_form_component` never synthesizes a key — it
only migrates (a success rewrites the component to its bucket-migrated
image).  The type-change path of `set_form_component_properties`, by
contrast, does synthesize a fresh key when the new type is keyed and no
truthy key survives: the base is the *whole-lowercased* word-stripped
label (or the type name), disambiguated by numeric suffixes against all
keys of the migrated tree — which is not exactly Add's derivation (Add
lower-cases only the first character and caps the label at 30
characters): on the label `FullName` the two derive `fullname` and
`fullName` respectively. -/
theorem type_change_key_synthesis (cs : List Comp) (cid t : String) (c : Comp)
    (hfind : findComponentById cs cid = some c)
    (hsup : isSupportedType t = true)
    (hne : ¬ c.data.type = t)
    (hkeyed : isKeyedType t = true)
    (hnokey : truthy? (migrateComp c t).data.key = none) :
    (applyTypeChangeForm cs cid t =
      .ok (updateFirstById (updateFirstById cs cid (fun x => migrateComp x t)) cid
        (fun x => Comp.mk { x.data with
          key := some (disambig (applyTypeChangeBase (migrateComp c t).data.label t)
            (collectAllKeys (updateFirstById cs cid (fun x => migrateComp x t)))) }
          x.children)) ∧
      findComponentById
        (updateFirstById (updateFirstById cs cid (fun x => migrateComp x t)) cid
          (fun x => Comp.mk { x.data with
            key := some (disambig (applyTypeChangeBase (migrateComp c t).data.label t)
              (collectAllKeys (updateFirstById cs cid (fun x => migrateComp x t)))) }
            x.children)) cid =
        some (Comp.mk { (migrateComp c t).data with
          key := some (disambig (applyTypeChangeBase (migrateComp c t).data.label t)
            (collectAllKeys (updateFirstById cs cid (fun x => migrateComp x t)))) }
          (migrateComp c t).children) ∧
      disambig (applyTypeChangeBase (migrateComp c t).data.label t)
          (collectAllKeys (updateFirstById cs cid (fun x => migrateComp x t))) ∉
        collectAllKeys (updateFirstById cs cid (fun x => migrateComp x t))) ∧
    (∀ (f : FormState) (f' : FormState),
      handleReplaceFormComponent f cid t = .ok f' →
      findComponentById f'.schema.components cid =
        (findComponentById f.schema.components cid).map (fun x => migrateComp x t)) ∧
    applyTypeChangeBase (some "FullName") "textfield" = "fullname" ∧
    resolveKeyBase none (some "FullName") "textfield" = "fullName" := by
  have hmig_id : ∀ x : Comp, (migrateComp x t).data.id = x.data.id := by
    intro x; obtain ⟨d, ch⟩ := x; simp [migrateComp, migrateData]
  refine ⟨⟨?_, ?_, disambig_not_mem _ _⟩, ?_, rfl, rfl⟩
  · unfold applyTypeChangeForm
    rw [hfind]
    simp [hsup, hne, hkeyed, hnokey]
  · rw [findComponentById_updateFirstById _ (by intro x; rfl) _ cid,
      findComponentById_updateFirstById _ hmig_id cs cid, hfind]
    rfl
  · intro f f' hok
    unfold handleReplaceFormComponent at hok
    repeat' split at hok
    · exact Except.noConfusion hok
    · exact Except.noConfusion hok
    · exact Except.noConfusion hok
    · injection hok with hok
      subst hok
      exact findComponentById_updateFirstById _ hmig_id f.schema.components cid

/-- Witness for the amended C4 theorem at a concrete component. -/
theorem type_change_key_synthesis_witness :
    applyTypeChangeForm [textComp] "t1" "textfield" =
      .ok (updateFirstById (updateFirstById [textComp] "t1"
          (fun x => migrateComp x "textfield")) "t1"
        (fun x => Comp.mk { x.data with
          key := some (disambig
            (applyTypeChangeBase (migrateComp textComp "textfield").data.label
              "textfield")
            (collectAllKeys (updateFirstById [textComp] "t1"
              (fun x => migrateComp x "textfield")))) }
          x.children)) :=
  (type_change_key_synthesis [textComp] "t1" "textfield" textComp
    (by simp [findComponentById, textComp]) (by decide) (by decide) (by decide)
    (by decide)).1.1

/-! ## C10 — consistency of the id lookup and the parent lookup -/

theorem findParent_isSome_eq_find :
    ∀ (cs : List Comp) (i : String),
      (findParentComponents cs i).isSome = (findComponentById cs i).isSome
  | [], i => by simp [findParentComponents, findComponentById]
  | Comp.mk d none :: rest, i => by
    by_cases hid : d.id = some i
    · simp [findParentComponents, findComponentById, hid]
    · simp only [findParentComponents, findComponentById, hid, if_false]
      exact findParent_isSome_eq_find rest i
  | Comp.mk d (some cs₀) :: rest, i => by
    by_cases hid : d.id = some i
    · simp [findParentComponents, findComponentById, hid]
    · rw [findParentComponents, findComponentById]
      simp only [hid, if_false]
      have hchild := findParent_isSome_eq_find cs₀ i
      cases hp : findParentComponents cs₀ i with
      | some arr =>
        rw [hp] at hchild
        cases hf : findComponentById cs₀ i with
        | some c₀ => simp
        | none => rw [hf] at hchild; simp at hchild
      | none =>
        rw [hp] at hchild
        cases hf : findComponentById cs₀ i with
        | some c₀ => rw [hf] at hchild; simp at hchild
        | none => exact findParent_isSome_eq_find rest i

theorem removeFirst_isSome_eq_find :
    ∀ (cs : List Comp) (i : String),
      (removeFirstById cs i).isSome = (findComponentById cs i).isSome
  | [], i => by simp [removeFirstById, findComponentById]
  | Comp.mk d none :: rest, i => by
    by_cases hid : d.id = some i
    · simp [removeFirstById, findComponentById, hid]
    · rw [removeFirstById, findComponentById]
      simp only [hid, if_false]
      have hrest := removeFirst_isSome_eq_find rest i
      cases hr : removeFirstById rest i with
      | some pr => rw [hr] at hrest; cases pr; simp; simp at hrest; simp [← hrest]
      | none => rw [hr] at hrest; simp at hrest ⊢; simp [← hrest]
  | Comp.mk d (some cs₀) :: rest, i => by
    by_cases hid : d.id = some i
    · simp [removeFirstById, findComponentById, hid]
    · rw [removeFirstById, findComponentById]
      simp only [hid, if_false]
      have hchild := removeFirst_isSome_eq_find cs₀ i
      cases hc : removeFirstById cs₀ i with
      | some pr =>
        rw [hc] at hchild
        cases pr
        cases hf : findComponentById cs₀ i with
        | some c₀ => simp
        | none => rw [hf] at hchild; simp at hchild
      | none =>
        rw [hc] at hchild
        cases hf : findComponentById cs₀ i with
        | some c₀ => rw [hf] at hchild; simp at hchild
        | none =>
          have hrest := removeFirst_isSome_eq_find rest i
          cases hr : removeFirstById rest i with
          | some pr => rw [hr] at hrest; cases pr; simp; simp at hrest; simp [← hrest]
          | none => rw [hr] at hrest; simp at hrest ⊢; simp [← hrest]

theorem dupFirst_isSome_eq_find (sfx : Nat → String) :
    ∀ (cs : List Comp) (sid : String) (n : Nat) (ks : List String),
      (dupFirstById sfx cs sid n ks).isSome = (findComponentById cs sid).isSome
  | [], sid, n, ks => by simp [dupFirstById, findComponentById]
  | Comp.mk d none :: rest, sid, n, ks => by
    by_cases hid : d.id = some sid
    · simp [dupFirstById, findComponentById, hid]
    · rw [dupFirstById, findComponentById]
      simp only [hid, if_false]
      have hrest := dupFirst_isSome_eq_find sfx rest sid n ks
      cases hr : dupFirstById sfx rest sid n ks with
      | some q =>
        rw [hr] at hrest
        obtain ⟨a, b, c, e⟩ := q
        simp
        simp at hrest
        simp [← hrest]
      | none => rw [hr] at hrest; simp at hrest ⊢; simp [← hrest]
  | Comp.mk d (some cs₀) :: rest, sid, n, ks => by
    by_cases hid : d.id = some sid
    · simp [dupFirstById, findComponentById, hid]
    · rw [dupFirstById, findComponentById]
      simp only [hid, if_false]
      have hchild := dupFirst_isSome_eq_find sfx cs₀ sid n ks
      cases hc : dupFirstById sfx cs₀ sid n ks with
      | some q =>
        rw [hc] at hchild
        obtain ⟨a, b, c, e⟩ := q
        cases hf : findComponentById cs₀ sid with
        | some c₀ => simp
        | none => rw [hf] at hchild; simp at hchild
      | none =>
        rw [hc] at hchild
        cases hf : findComponentById cs₀ sid with
        | some c₀ => rw [hf] at hchild; simp at hchild
        | none =>
          have hrest := dupFirst_isSome_eq_find sfx rest sid n ks
          cases hr : dupFirstById sfx rest sid n ks with
          | some q =>
            rw [hr] at hrest
            obtain ⟨a, b, c, e⟩ := q
            simp
            simp at hrest
            simp [← hrest]
          | none => rw [hr] at hrest; simp at hrest ⊢; simp [← hrest]

theorem findParent_contains :
    ∀ (cs : List Comp) (i : String) (arr : List Comp),
      findParentComponents cs i = some arr → ∃ c ∈ arr, c.data.id = some i
  | [], i, arr => by simp [findParentComponents]
  | Comp.mk d none :: rest, i, arr => by
    by_cases hid : d.id = some i
    · rw [findParentComponents, if_pos hid]
      intro h
      injection h with h
      exact ⟨Comp.mk d none, by rw [← h]; simp, hid⟩
    · rw [findParentComponents, if_neg hid]
      exact findParent_contains rest i arr
  | Comp.mk d (some cs₀) :: rest, i, arr => by
    by_cases hid : d.id = some i
    · rw [findParentComponents, if_pos hid]
      intro h
      injection h with h
      exact ⟨Comp.mk d (some cs₀), by rw [← h]; simp, hid⟩
    · rw [findParentComponents, if_neg hid]
      cases hp : findParentComponents cs₀ i with
      | some arr₀ =>
        intro h
        injection h with h
        subst h
        exact findParent_contains cs₀ i arr₀ hp
      | none => exact findParent_contains rest i arr

theorem ne_of_data_head {x y : String} (h : x.data.head? ≠ y.data.head?) :
    x ≠ y := fun he => h (by rw [he])

/-- C10: `findComponentById` finds a component exactly when
`findParentComponents` finds a containing array, that array really
contains a component with the id, and consequently — once the preceding
`requireComponent` lookup has succeeded — the `Cannot find parent`
branches of the delete, move and duplicate handlers are unreachable:
delete and duplicate succeed outright, and move can only fail with a
destination error. -/
theorem find_parent_lookup_consistency (cs : List Comp) (i : String) :
    ((findComponentById cs i).isSome ↔ (findParentComponents cs i).isSome) ∧
    (∀ arr, findParentComponents cs i = some arr →
      ∃ c ∈ arr, c.data.id = some i) ∧
    (∀ (f : FormState), (findComponentById f.schema.components i).isSome →
      (∃ f', handleDeleteFormComponent f i = .ok f') ∧
      (∀ (tp : Option String) (p : Option Int),
        (handleMoveFormComponent f i tp p).1 ≠
          .error s!"Cannot find parent of component {i}") ∧
      (∀ (a : AddArgs) (sfx : Nat → String), truthy? a.sourceComponentId = some i →
        ∃ out, handleAddFormComponent f a sfx = .ok out)) := by
  refine ⟨by rw [findParent_isSome_eq_find], findParent_contains cs i, ?_⟩
  intro f hfind
  obtain ⟨c, hc⟩ := Option.isSome_iff_exists.mp hfind
  have hrem : (removeFirstById f.schema.components i).isSome := by
    rw [removeFirst_isSome_eq_find, hfind]
  obtain ⟨⟨x, cs'⟩, hx⟩ := Option.isSome_iff_exists.mp hrem
  refine ⟨?_, ?_, ?_⟩
  · exact ⟨{ f with schema := ⟨cs'⟩, version := f.version + 1 },
      by simp only [handleDeleteFormComponent, hc, hx]⟩
  · intro tp p
    cases htp : truthy? tp with
    | none =>
      simp only [handleMoveFormComponent, hc, hx, htp]
      exact fun h => Except.noConfusion h
    | some pid =>
      cases hfp : findComponentById cs' pid with
      | none =>
        simp only [handleMoveFormComponent, hc, hx, htp, hfp]
        intro h
        injection h with h
        have h1 : ((toString "Target parent not found: " ++ toString pid ++
            toString "") : String).data.head? = some 'T' := rfl
        have h2 : ((toString "Cannot find parent of component " ++ toString i ++
            toString "") : String).data.head? = some 'C' := rfl
        have hne := congrArg (fun s : String => s.data.head?) h
        simp only [h1, h2] at hne
        exact absurd hne (by decide)
      | some parent =>
        by_cases hcont : isContainerType parent.data.type
        · simp only [handleMoveFormComponent, hc, hx, htp, hfp, hcont, if_true]
          exact fun h => Except.noConfusion h
        · simp only [handleMoveFormComponent, hc, hx, htp, hfp, hcont, if_false]
          intro h
          injection h with h
          have h1 : ((toString "Target " ++ toString pid ++
              toString " is not a container") : String).data.head? = some 'T' := rfl
          have h2 : ((toString "Cannot find parent of component " ++ toString i ++
              toString "") : String).data.head? = some 'C' := rfl
          have hne := congrArg (fun s : String => s.data.head?) h
          simp only [h1, h2] at hne
          exact absurd hne (by decide)
  · intro a sfx hsid
    have hdup : (dupFirstById sfx f.schema.components i 0
        (collectAllKeys f.schema.components)).isSome := by
      rw [dupFirst_isSome_eq_find, hfind]
    obtain ⟨⟨cs₂, clone, n', ks'⟩, hd⟩ := Option.isSome_iff_exists.mp hdup
    exact ⟨({ f with schema := ⟨cs₂⟩, version := f.version + 1 }, clone),
      by simp only [handleAddFormComponent, hsid, hc, hd]⟩

/-- Witness for the C10 theorem at a concrete form. -/
theorem find_parent_lookup_consistency_witness :
    (∃ c ∈ [tfa, tfb], c.data.id = some "a") ∧
    (∃ f', handleDeleteFormComponent twoFieldForm "a" = .ok f') :=
  ⟨(find_parent_lookup_consistency twoFieldForm.schema.components "a").2.1
      [tfa, tfb]
      (by simp [twoFieldForm, tfa, tfb, findParentComponents]),
    ((find_parent_lookup_consistency twoFieldForm.schema.components "a").2.2
      twoFieldForm
      (by simp [twoFieldForm, tfa, tfb, findComponentById])).1⟩

/-! ## C8 — universal properties across a type-replace round trip -/

theorem migrateComp_id (c : Comp) (t : String) :
    (migrateComp c t).data.id = c.data.id := by
  obtain ⟨d, ch⟩ := c; simp [migrateComp, migrateData]

theorem migrateComp_type (c : Comp) (t : String) :
    (migrateComp c t).data.type = t := by
  obtain ⟨d, ch⟩ := c; simp [migrateComp, migrateData]

/-- C8: replacing a component's type A→B and then B→A through
`replace_form_component` succeeds (for distinct supported types), the
component is rewritten to its double-migrated image, its universal
properties (`id`, `label`, `description`, `conditional`, `layout`) are
exactly the original ones with the type restored to A, and after each of
the two steps the keyed-only, options-only and container-only properties
are present only when the then-current type is keyed / options-accepting
/ a container. -/
theorem type_replace_roundtrip (f : FormState) (cid A B : String) (c : Comp)
    (hfind : findComponentById f.schema.components cid = some c)
    (hA : c.data.type = A) (hsA : isSupportedType A = true)
    (hsB : isSupportedType B = true) (hne : ¬ A = B) :
    (handleReplaceFormComponent f cid B =
      .ok { f with
        schema := ⟨updateFirstById f.schema.components cid
          (fun x => migrateComp x B)⟩,
        version := f.version + 1 }) ∧
    (handleReplaceFormComponent
        { f with
          schema := ⟨updateFirstById f.schema.components cid
            (fun x => migrateComp x B)⟩,
          version := f.version + 1 } cid A =
      .ok { f with
        schema := ⟨updateFirstById (updateFirstById f.schema.components cid
          (fun x => migrateComp x B)) cid (fun x => migrateComp x A)⟩,
        version := f.version + 2 }) ∧
    (findComponentById (updateFirstById f.schema.components cid
        (fun x => migrateComp x B)) cid = some (migrateComp c B)) ∧
    (findComponentById (updateFirstById (updateFirstById f.schema.components cid
        (fun x => migrateComp x B)) cid (fun x => migrateComp x A)) cid =
      some (migrateComp (migrateComp c B) A)) ∧
    ((migrateComp (migrateComp c B) A).data.type = A ∧
      (migrateComp (migrateComp c B) A).data.id = c.data.id ∧
      (migrateComp (migrateComp c B) A).data.label = c.data.label ∧
      (migrateComp (migrateComp c B) A).data.description = c.data.description ∧
      (migrateComp (migrateComp c B) A).data.conditional = c.data.conditional ∧
      (migrateComp (migrateComp c B) A).data.layout = c.data.layout ∧
      (migrateComp (migrateComp c B) A).data.properties = c.data.properties) ∧
    (∀ (y : Comp) (t : String),
      (isKeyedType t = false →
        (migrateComp y t).data.key = none ∧
        (migrateComp y t).data.defaultValue = none ∧
        (migrateComp y t).data.disabled = none ∧
        (migrateComp y t).data.readonly = none ∧
        (migrateComp y t).data.validate = none) ∧
      (isOptionsType t = false →
        (migrateComp y t).data.values = none ∧
        (migrateComp y t).data.valuesKey = none ∧
        (migrateComp y t).data.valuesExpression = none) ∧
      (isContainerType t = false → (migrateComp y t).children = none)) := by
  have hfind1 : findComponentById (updateFirstById f.schema.components cid
      (fun x => migrateComp x B)) cid = some (migrateComp c B) := by
    rw [findComponentById_updateFirstById _ (fun x => migrateComp_id x B) _ cid,
      hfind]
    rfl
  have hfind2 : findComponentById (updateFirstById (updateFirstById
      f.schema.components cid (fun x => migrateComp x B)) cid
      (fun x => migrateComp x A)) cid = some (migrateComp (migrateComp c B) A) := by
    rw [findComponentById_updateFirstById _ (fun x => migrateComp_id x A) _ cid,
      hfind1]
    rfl
  refine ⟨?_, ?_, hfind1, hfind2, ?_, ?_⟩
  · unfold handleReplaceFormComponent
    rw [hfind]
    have hty : ¬ (c.data.type = B) := by rw [hA]; exact hne
    simp [hsB, hty]
  · unfold handleReplaceFormComponent
    rw [hfind1]
    have hty : ¬ ((migrateComp c B).data.type = A) := by
      rw [migrateComp_type]
      exact fun hh => hne hh.symm
    simp [hsA, hty]
  · obtain ⟨d, ch⟩ := c
    refine ⟨?_, ?_, ?_, ?_, ?_, ?_, ?_⟩ <;> simp [migrateComp, migrateData, hA]
  · intro y t
    obtain ⟨d, ch⟩ := y
    refine ⟨fun hk => ?_, fun ho => ?_, fun hcn => ?_⟩
    · simp [migrateComp, migrateData, hk]
    · simp [migrateComp, migrateData, ho]
    · simp [migrateComp, migrateData, hcn]

/-- Witness for the C8 theorem: a concrete textfield → textarea step. -/
theorem type_replace_roundtrip_witness :
    handleReplaceFormComponent twoFieldForm "a" "textarea" =
      .ok { twoFieldForm with
        schema := ⟨updateFirstById twoFieldForm.schema.components "a"
          (fun x => migrateComp x "textarea")⟩,
        version := twoFieldForm.version + 1 } :=
  (type_replace_roundtrip twoFieldForm "a" "textfield" "textarea" tfa
    (by simp [twoFieldForm, tfa, tfb, findComponentById])
    (by decide) (by decide) (by decide) (by decide)).1

/-! ## C2 — batch atomicity -/

theorem batchLoop_ops_append (snap : FormSchema) (v : Nat) :
    ∀ (pre : List BatchOp) (f f₁ : FormState) (done : Nat) (ops' : List BatchOp),
      runOps f pre = some f₁ →
      batchLoop snap v f done (pre ++ ops') =
        batchLoop snap v f₁ (done + pre.length) ops' := by
  intro pre
  induction pre with
  | nil =>
    intro f f₁ done ops' h
    simp only [runOps] at h
    injection h with h
    subst h
    simp
  | cons op pre ih =>
    intro f f₁ done ops' h
    rw [runOps] at h
    cases hd : dispatchOp f op with
    | ok f₂ =>
      rw [hd] at h
      dsimp only at h
      rw [List.cons_append]
      simp only [batchLoop, hd]
      rw [ih f₂ f₁ (done + 1) ops' h]
      rw [List.length_cons]
      congr 1
      omega
    | error e => rw [hd] at h; simp at h

/-- C2: a batch whose first `pre.length` operations succeed and whose
next operation fails reports `success := false`,
`completedOperations = pre.length` (= k-1) and `rolledBack := true`, and
restores the form's schema and version to the pre-batch snapshot — so
component count, ids and keys all equal those of the pre-batch state. -/
theorem batch_rollback_on_failure (f f₁ : FormState) (pre : List BatchOp)
    (opk : BatchOp) (rest : List BatchOp)
    (hpre : runOps f pre = some f₁)
    (hfail : ∃ e, dispatchOp f₁ opk = .error e) :
    handleBatchFormOperations f (pre ++ opk :: rest) =
      .ok ({ success := false, completedOperations := pre.length, rolledBack := true },
        { f₁ with schema := f.schema, version := f.version }) ∧
    countComponents ({ f₁ with schema := f.schema, version := f.version } : FormState).schema.components =
      countComponents f.schema.components ∧
    collectAllIds ({ f₁ with schema := f.schema, version := f.version } : FormState).schema.components =
      collectAllIds f.schema.components ∧
    collectAllKeys ({ f₁ with schema := f.schema, version := f.version } : FormState).schema.components =
      collectAllKeys f.schema.components := by
  obtain ⟨e, he⟩ := hfail
  refine ⟨?_, rfl, rfl, rfl⟩
  unfold handleBatchFormOperations
  rw [if_neg (by simp)]
  rw [batchLoop_ops_append f.schema f.version pre f f₁ 0 (opk :: rest) hpre]
  rw [batchLoop, he]
  simp

/-- The two-field form after deleting `a`. -/
def oneFieldForm : FormState :=
  { name := none, schema := ⟨[tfb]⟩, version := 1 }

/-- Witness for the C2 theorem: delete `a` succeeds, then moving `b` into
a nonexistent parent fails, and the batch rolls back. -/
theorem batch_rollback_on_failure_witness :
    handleBatchFormOperations twoFieldForm
        [BatchOp.deleteComponent "a",
          BatchOp.moveComponent "b" (some "zz") none] =
      .ok ({ success := false, completedOperations := 1, rolledBack := true },
        { oneFieldForm with schema := twoFieldForm.schema, version := twoFieldForm.version }) :=
  (batch_rollback_on_failure twoFieldForm oneFieldForm
    [BatchOp.deleteComponent "a"] (BatchOp.moveComponent "b" (some "zz") none) []
    (by
      simp [runOps, dispatchOp, handleDeleteFormComponent, findComponentById,
        removeFirstById, twoFieldForm, oneFieldForm, tfa, tfb])
    ⟨"Target parent not found: zz", by
      simp [dispatchOp, handleMoveFormComponent, findComponentById,
        removeFirstById, oneFieldForm, tfb, truthy?]⟩).1

/-! ## C3 — uniqueness of ids and keys

The invariant tracked across operations: the collected ids and keys are
duplicate-free and no component carries an empty-string id or key (JS
truthiness makes `""` invisible to `collectAllIds` / `collectAllKeys`, so
empty identities would escape the disambiguation machinery). -/

def NoEmptyIdentity (cs : List Comp) : Prop :=
  (∀ x ∈ allCompsList cs, x.data.id ≠ some "") ∧
  (∀ x ∈ allCompsList cs, x.data.key ≠ some "")

def TreeUniq (cs : List Comp) : Prop :=
  (collectAllIds cs).Nodup ∧ (collectAllKeys cs).Nodup ∧ NoEmptyIdentity cs

theorem allCompsList_append :
    ∀ (l₁ l₂ : List Comp),
      allCompsList (l₁ ++ l₂) = allCompsList l₁ ++ allCompsList l₂
  | [], l₂ => by simp [allCompsList]
  | c :: rest, l₂ => by
    rw [List.cons_append, allCompsList_cons, allCompsList_cons,
      allCompsList_append rest l₂]
    simp

theorem collectAllIds_append :
    ∀ (l₁ l₂ : List Comp),
      collectAllIds (l₁ ++ l₂) = collectAllIds l₁ ++ collectAllIds l₂
  | [], l₂ => by simp [collectAllIds]
  | c :: rest, l₂ => by
    rw [List.cons_append, collectAllIds_cons, collectAllIds_cons,
      collectAllIds_append rest l₂]
    simp

theorem collectAllKeys_append :
    ∀ (l₁ l₂ : List Comp),
      collectAllKeys (l₁ ++ l₂) = collectAllKeys l₁ ++ collectAllKeys l₂
  | [], l₂ => by simp [collectAllKeys]
  | c :: rest, l₂ => by
    rw [List.cons_append, collectAllKeys_cons, collectAllKeys_cons,
      collectAllKeys_append rest l₂]
    simp

/-- With no empty-string ids around, `collectAllIds` is exactly the list
of present ids. -/
theorem collectAllIds_eq_presentIds :
    ∀ (cs : List Comp), (∀ x ∈ allCompsList cs, x.data.id ≠ some "") →
      collectAllIds cs = presentIds cs
  | [], _ => by simp [collectAllIds, presentIds, allCompsList]
  | Comp.mk d none :: rest, h => by
    have hd := h (Comp.mk d none) (by rw [allCompsList_cons]; simp)
    simp only [Comp.data_mk] at hd
    have hrest := collectAllIds_eq_presentIds rest
      (fun x hx => h x (by rw [allCompsList_cons]; simp; right; simpa using hx))
    cases hid : d.id with
    | none =>
      simp [collectAllIds_cons, presentIds, allCompsList_cons, hid, truthy?,
        List.filterMap_cons, hrest, presentIds] at hrest ⊢
    | some i =>
      have hi : i ≠ "" := by rw [hid] at hd; simpa using hd
      simp [collectAllIds_cons, presentIds, allCompsList_cons, hid, truthy?,
        List.filterMap_cons, hi] at hrest ⊢
      simpa [presentIds] using hrest
  | Comp.mk d (some cs₀) :: rest, h => by
    have hd := h (Comp.mk d (some cs₀)) (by rw [allCompsList_cons]; simp)
    simp only [Comp.data_mk] at hd
    have hcs₀ := collectAllIds_eq_presentIds cs₀
      (fun x hx => h x (by rw [allCompsList_cons]; simp; right; left; simpa using hx))
    have hrest := collectAllIds_eq_presentIds rest
      (fun x hx => h x (by rw [allCompsList_cons]; simp; right; right; simpa using hx))
    cases hid : d.id with
    | none =>
      simp [presentIds, List.filterMap_append] at hcs₀ hrest
      simp [collectAllIds_cons, presentIds, allCompsList_cons, hid, truthy?,
        List.filterMap_cons, List.filterMap_append, hcs₀, hrest]
    | some i =>
      have hi : i ≠ "" := by rw [hid] at hd; simpa using hd
      simp [presentIds, List.filterMap_append] at hcs₀ hrest
      simp [collectAllIds_cons, presentIds, allCompsList_cons, hid, truthy?,
        List.filterMap_cons, List.filterMap_append, hi, hcs₀, hrest]

/-- With no empty-string keys around, `collectAllKeys` is exactly the
list of present keys. -/
theorem collectAllKeys_eq_presentKeys :
    ∀ (cs : List Comp), (∀ x ∈ allCompsList cs, x.data.key ≠ some "") →
      collectAllKeys cs = (allCompsList cs).filterMap (fun c => c.data.key)
  | [], _ => by simp [collectAllKeys, allCompsList]
  | Comp.mk d none :: rest, h => by
    have hd := h (Comp.mk d none) (by rw [allCompsList_cons]; simp)
    simp only [Comp.data_mk] at hd
    have hrest := collectAllKeys_eq_presentKeys rest
      (fun x hx => h x (by rw [allCompsList_cons]; simp; right; simpa using hx))
    cases hk : d.key with
    | none =>
      simp [collectAllKeys_cons, allCompsList_cons, hk, truthy?,
        List.filterMap_cons, hrest]
    | some k =>
      have hkne : k ≠ "" := by rw [hk] at hd; simpa using hd
      simp [collectAllKeys_cons, allCompsList_cons, hk, truthy?,
        List.filterMap_cons, hkne, hrest]
  | Comp.mk d (some cs₀) :: rest, h => by
    have hd := h (Comp.mk d (some cs₀)) (by rw [allCompsList_cons]; simp)
    simp only [Comp.data_mk] at hd
    have hcs₀ := collectAllKeys_eq_presentKeys cs₀
      (fun x hx => h x (by rw [allCompsList_cons]; simp; right; left; simpa using hx))
    have hrest := collectAllKeys_eq_presentKeys rest
      (fun x hx => h x (by rw [allCompsList_cons]; simp; right; right; simpa using hx))
    cases hk : d.key with
    | none =>
      simp [collectAllKeys_cons, allCompsList_cons, hk, truthy?,
        List.filterMap_cons, List.filterMap_append, hcs₀, hrest]
    | some k =>
      have hkne : k ≠ "" := by rw [hk] at hd; simpa using hd
      simp [collectAllKeys_cons, allCompsList_cons, hk, truthy?,
        List.filterMap_cons, List.filterMap_append, hkne, hcs₀, hrest]

/-- A filterMap that yields whenever a finer one does is a sublist. -/
theorem filterMap_sublist_of_imp {α β : Type} (g fn : α → Option β)
    (h : ∀ a b, g a = some b → fn a = some b) :
    ∀ l : List α, (l.filterMap g).Sublist (l.filterMap fn)
  | [] => List.Sublist.refl _
  | a :: l => by
    rw [List.filterMap_cons, List.filterMap_cons]
    cases hg : g a with
    | none =>
      cases hf : fn a with
      | none => exact filterMap_sublist_of_imp g fn h l
      | some b => exact List.Sublist.cons b (filterMap_sublist_of_imp g fn h l)
    | some b =>
      rw [h a b hg]
      exact List.Sublist.cons₂ b (filterMap_sublist_of_imp g fn h l)

theorem keyedKeys_nodup_of_collect (cs : List Comp)
    (hnd : (collectAllKeys cs).Nodup)
    (hne : ∀ x ∈ allCompsList cs, x.data.key ≠ some "") :
    (keyedKeys cs).Nodup := by
  have hsub : (keyedKeys cs).Sublist
      ((allCompsList cs).filterMap (fun c => c.data.key)) := by
    apply filterMap_sublist_of_imp
    intro a b hg
    by_cases hkd : isKeyedType a.data.type <;> simp [hkd] at hg
    exact hg
  rw [collectAllKeys_eq_presentKeys cs hne] at hnd
  exact hsub.nodup hnd

theorem presentIds_nodup_of_collect (cs : List Comp)
    (hnd : (collectAllIds cs).Nodup)
    (hne : ∀ x ∈ allCompsList cs, x.data.id ≠ some "") :
    (presentIds cs).Nodup := by
  rw [← collectAllIds_eq_presentIds cs hne]
  exact hnd

/-! String nonemptiness helpers. -/

theorem str_ne_empty_iff_length_pos (s : String) : s ≠ "" ↔ 0 < s.length := by
  constructor
  · intro h
    cases hs : s.data with
    | nil => exact absurd (by apply String.ext; simpa using hs) h
    | cons a l => simp [String.length, hs]
  · intro h he
    rw [he] at h
    simp [String.length] at h

theorem candidateKey_ne_empty (base : String) (hbase : base ≠ "") :
    ∀ j, candidateKey base j ≠ ""
  | 0 => hbase
  | j + 1 => by
    rw [str_ne_empty_iff_length_pos] at hbase ⊢
    show 0 < (base ++ Nat.repr (j + 1)).length
    rw [String.length_append]
    omega

theorem disambigFrom_shape (base : String) (existing : List String) :
    ∀ fuel ctr, ∃ j, disambigFrom base existing fuel ctr = candidateKey base j := by
  intro fuel
  induction fuel with
  | zero => intro ctr; exact ⟨ctr, rfl⟩
  | succ fuel ih =>
    intro ctr
    by_cases h : candidateKey base ctr ∈ existing
    · obtain ⟨j, hj⟩ := ih (ctr + 1)
      exact ⟨j, by rw [disambigFrom, if_pos h, hj]⟩
    · exact ⟨ctr, by rw [disambigFrom, if_neg h]⟩

theorem disambig_ne_empty (base : String) (existing : List String)
    (hbase : base ≠ "") : disambig base existing ≠ "" := by
  obtain ⟨j, hj⟩ := disambigFrom_shape base existing (existing.length + 1) 0
  rw [disambig, hj]
  exact candidateKey_ne_empty base hbase j

theorem generateComponentId_ne_empty (t : String) (label : Option String)
    (suffix : String) : generateComponentId t label suffix ≠ "" := by
  unfold generateComponentId
  rw [str_ne_empty_iff_length_pos]
  have h1 : String.length "_" = 1 := rfl
  cases hl : truthy? label with
  | none =>
    dsimp only []
    rw [String.length_append, String.length_append]
    omega
  | some l =>
    dsimp only []
    by_cases hc : (takeChars (stripNonWord l) 20).length > 0
    · rw [if_pos hc]
      rw [String.length_append, String.length_append, String.length_append,
        String.length_append]
      omega
    · rw [if_neg hc]
      rw [String.length_append, String.length_append]
      omega

theorem clone_id_ne_empty (t sfxv : String) : (t ++ "_" ++ sfxv) ≠ "" := by
  rw [str_ne_empty_iff_length_pos]
  have h1 : String.length "_" = 1 := rfl
  rw [String.length_append, String.length_append]
  omega

/-! Generic collector: `collectAllIds` and `collectAllKeys` are both
instances, so the tree-surgery lemmas below are proved once. -/

def collectBy (p : CompData → List String) : List Comp → List String
  | [] => []
  | Comp.mk d none :: rest => p d ++ collectBy p rest
  | Comp.mk d (some cs) :: rest => p d ++ collectBy p cs ++ collectBy p rest

def idPart (d : CompData) : List String :=
  match truthy? d.id with | some i => [i] | none => []

def keyPart (d : CompData) : List String :=
  match truthy? d.key with | some k => [k] | none => []

theorem collectAllIds_eq_collectBy :
    ∀ cs, collectAllIds cs = collectBy idPart cs
  | [] => by simp [collectAllIds, collectBy]
  | Comp.mk d none :: rest => by
    simp [collectAllIds, collectBy, idPart, collectAllIds_eq_collectBy rest]
  | Comp.mk d (some cs₀) :: rest => by
    simp [collectAllIds, collectBy, idPart, collectAllIds_eq_collectBy cs₀,
      collectAllIds_eq_collectBy rest]

theorem collectAllKeys_eq_collectBy :
    ∀ cs, collectAllKeys cs = collectBy keyPart cs
  | [] => by simp [collectAllKeys, collectBy]
  | Comp.mk d none :: rest => by
    simp [collectAllKeys, collectBy, keyPart, collectAllKeys_eq_collectBy rest]
  | Comp.mk d (some cs₀) :: rest => by
    simp [collectAllKeys, collectBy, keyPart, collectAllKeys_eq_collectBy cs₀,
      collectAllKeys_eq_collectBy rest]

theorem collectBy_cons (p : CompData → List String) (c : Comp)
    (rest : List Comp) :
    collectBy p (c :: rest) = collectBy p [c] ++ collectBy p rest := by
  obtain ⟨d, ch⟩ := c
  cases ch <;> simp [collectBy]

theorem collectBy_append (p : CompData → List String) :
    ∀ l₁ l₂ : List Comp,
      collectBy p (l₁ ++ l₂) = collectBy p l₁ ++ collectBy p l₂
  | [], l₂ => by simp [collectBy]
  | c :: rest, l₂ => by
    rw [List.cons_append, collectBy_cons p c (rest ++ l₂),
      collectBy_cons p c rest, collectBy_append p rest l₂, List.append_assoc]

theorem collectBy_single_none (p : CompData → List String) (d : CompData) :
    collectBy p [Comp.mk d none] = p d := by
  simp [collectBy]

theorem collectBy_single_some (p : CompData → List String) (d : CompData)
    (l : List Comp) :
    collectBy p [Comp.mk d (some l)] = p d ++ collectBy p l := by
  simp [collectBy]

theorem perm_pull_front {α : Type} (x Δ r : List α) :
    List.Perm (x ++ (Δ ++ r)) (Δ ++ (x ++ r)) := by
  have h1 : x ++ (Δ ++ r) = (x ++ Δ) ++ r := (List.append_assoc x Δ r).symm
  have h2 : Δ ++ (x ++ r) = (Δ ++ x) ++ r := (List.append_assoc Δ x r).symm
  rw [h1, h2]
  exact List.perm_append_comm.append_right r

/-! `allCompsList` decompositions and membership. -/

theorem allCompsList_cons2 (c : Comp) (rest : List Comp) :
    allCompsList (c :: rest) = allCompsList [c] ++ allCompsList rest := by
  obtain ⟨d, ch⟩ := c
  cases ch <;> simp [allCompsList]

theorem allCompsList_single_none (d : CompData) :
    allCompsList [Comp.mk d none] = [Comp.mk d none] := by
  simp [allCompsList]

theorem allCompsList_single_some (d : CompData) (l : List Comp) :
    allCompsList [Comp.mk d (some l)] = Comp.mk d (some l) :: allCompsList l := by
  simp [allCompsList]

theorem self_mem_allCompsList_single (c : Comp) : c ∈ allCompsList [c] := by
  obtain ⟨d, ch⟩ := c
  cases ch <;> simp [allCompsList]

theorem mem_allCompsList_head {x c : Comp} {rest : List Comp}
    (h : x ∈ allCompsList [c]) : x ∈ allCompsList (c :: rest) := by
  rw [allCompsList_cons2]
  exact List.mem_append_left _ h

theorem mem_allCompsList_rest {x : Comp} (c : Comp) {rest : List Comp}
    (h : x ∈ allCompsList rest) : x ∈ allCompsList (c :: rest) := by
  rw [allCompsList_cons2]
  exact List.mem_append_right _ h

theorem self_mem_allCompsList_head (c : Comp) (rest : List Comp) :
    c ∈ allCompsList (c :: rest) :=
  mem_allCompsList_head (self_mem_allCompsList_single c)

/-- Membership in `allCompsList` is closed under passing to a subtree. -/
theorem mem_allCompsList_trans :
    ∀ (cs : List Comp) (c : Comp), c ∈ allCompsList cs →
      ∀ x, x ∈ allCompsList [c] → x ∈ allCompsList cs
  | [], c => by simp [allCompsList]
  | Comp.mk d none :: rest, c => by
    intro hc x hx
    rw [allCompsList_cons2, List.mem_append] at hc
    rcases hc with hc | hc
    · rw [allCompsList_single_none] at hc
      simp only [List.mem_singleton] at hc
      subst hc
      exact mem_allCompsList_head hx
    · exact mem_allCompsList_rest _ (mem_allCompsList_trans rest c hc x hx)
  | Comp.mk d (some l) :: rest, c => by
    intro hc x hx
    rw [allCompsList_cons2, List.mem_append] at hc
    rcases hc with hc | hc
    · rw [allCompsList_single_some, List.mem_cons] at hc
      rcases hc with hc | hc
      · subst hc
        exact mem_allCompsList_head hx
      · exact mem_allCompsList_head
          (by rw [allCompsList_single_some]
              exact List.mem_cons_of_mem _ (mem_allCompsList_trans l c hc x hx))
    · exact mem_allCompsList_rest _ (mem_allCompsList_trans rest c hc x hx)

/-! Insertion: collector contents and node membership. -/

theorem collectBy_insertAt_perm (p : CompData → List String) (l : List Comp)
    (pos : Nat) (c : Comp) :
    List.Perm (collectBy p (insertAt l pos c)) (collectBy p [c] ++ collectBy p l) := by
  unfold insertAt
  rw [collectBy_append, collectBy_cons]
  have hl : collectBy p l = collectBy p (l.take pos) ++ collectBy p (l.drop pos) := by
    rw [← collectBy_append, List.take_append_drop]
  rw [hl]
  exact perm_pull_front _ _ _

theorem collectBy_insertPosAdd_perm (p : CompData → List String) (l : List Comp)
    (c : Comp) (pos : Option Int) :
    List.Perm (collectBy p (insertPosAdd l c pos))
      (collectBy p [c] ++ collectBy p l) := by
  cases pos with
  | none =>
    simp only [insertPosAdd]
    rw [collectBy_append]
    exact List.perm_append_comm
  | some q =>
    simp only [insertPosAdd]
    by_cases h : 0 ≤ q ∧ q < (l.length : Int)
    · rw [if_pos h]
      exact collectBy_insertAt_perm p l q.toNat c
    · rw [if_neg h, collectBy_append]
      exact List.perm_append_comm

theorem mem_allCompsList_insertAt {x : Comp} (l : List Comp) (pos : Nat)
    (c : Comp) (hx : x ∈ allCompsList (insertAt l pos c)) :
    x ∈ allCompsList l ∨ x ∈ allCompsList [c] := by
  unfold insertAt at hx
  rw [allCompsList_append, allCompsList_cons2] at hx
  have hl : allCompsList l = allCompsList (l.take pos) ++ allCompsList (l.drop pos) := by
    rw [← allCompsList_append, List.take_append_drop]
  simp only [List.mem_append] at hx
  rcases hx with hx | hx | hx
  · exact Or.inl (by rw [hl]; exact List.mem_append_left _ hx)
  · exact Or.inr hx
  · exact Or.inl (by rw [hl]; exact List.mem_append_right _ hx)

theorem mem_allCompsList_insertPosAdd {x : Comp} (l : List Comp) (c : Comp)
    (pos : Option Int) (hx : x ∈ allCompsList (insertPosAdd l c pos)) :
    x ∈ allCompsList l ∨ x ∈ allCompsList [c] := by
  cases pos with
  | none =>
    simp only [insertPosAdd] at hx
    rw [allCompsList_append, List.mem_append] at hx
    rcases hx with hx | hx
    · exact Or.inl hx
    · exact Or.inr hx
  | some q =>
    simp only [insertPosAdd] at hx
    by_cases h : 0 ≤ q ∧ q < (l.length : Int)
    · rw [if_pos h] at hx
      exact mem_allCompsList_insertAt l q.toNat c hx
    · rw [if_neg h, allCompsList_append, List.mem_append] at hx
      rcases hx with hx | hx
      · exact Or.inl hx
      · exact Or.inr hx

/-! Updating the first match: collector contents shrink (sublist) when
the update shrinks each node, and gain exactly `Δ` (perm) when the update
adds `Δ` to each node and the target exists. -/

theorem collectBy_updateFirstById_sublist (p : CompData → List String)
    (g : Comp → Comp)
    (hg : ∀ c, (collectBy p [g c]).Sublist (collectBy p [c])) :
    ∀ (cs : List Comp) (i : String),
      (collectBy p (updateFirstById cs i g)).Sublist (collectBy p cs)
  | [], i => by simp [updateFirstById, collectBy]
  | Comp.mk d none :: rest, i => by
    by_cases hid : d.id = some i
    · have hstep : updateFirstById (Comp.mk d none :: rest) i g =
          g (Comp.mk d none) :: rest := by rw [updateFirstById, if_pos hid]
      rw [hstep, collectBy_cons, collectBy_cons p (Comp.mk d none) rest]
      exact (hg _).append (List.Sublist.refl _)
    · have hstep : updateFirstById (Comp.mk d none :: rest) i g =
          Comp.mk d none :: updateFirstById rest i g := by
        rw [updateFirstById, if_neg hid]
      rw [hstep, collectBy_cons, collectBy_cons p (Comp.mk d none) rest]
      exact (List.Sublist.refl _).append
        (collectBy_updateFirstById_sublist p g hg rest i)
  | Comp.mk d (some cs₀) :: rest, i => by
    by_cases hid : d.id = some i
    · have hstep : updateFirstById (Comp.mk d (some cs₀) :: rest) i g =
          g (Comp.mk d (some cs₀)) :: rest := by rw [updateFirstById, if_pos hid]
      rw [hstep, collectBy_cons, collectBy_cons p (Comp.mk d (some cs₀)) rest]
      exact (hg _).append (List.Sublist.refl _)
    · cases hfound : findComponentById cs₀ i with
      | some c₀ =>
        have hstep : updateFirstById (Comp.mk d (some cs₀) :: rest) i g =
            Comp.mk d (some (updateFirstById cs₀ i g)) :: rest := by
          rw [updateFirstById, if_neg hid, hfound]
        rw [hstep, collectBy_cons, collectBy_cons p (Comp.mk d (some cs₀)) rest,
          collectBy_single_some, collectBy_single_some]
        exact ((List.Sublist.refl (p d)).append
          (collectBy_updateFirstById_sublist p g hg cs₀ i)).append
          (List.Sublist.refl _)
      | none =>
        have hstep : updateFirstById (Comp.mk d (some cs₀) :: rest) i g =
            Comp.mk d (some cs₀) :: updateFirstById rest i g := by
          rw [updateFirstById, if_neg hid, hfound]
        rw [hstep, collectBy_cons, collectBy_cons p (Comp.mk d (some cs₀)) rest]
        exact (List.Sublist.refl _).append
          (collectBy_updateFirstById_sublist p g hg rest i)

theorem collectBy_updateFirstById_perm (p : CompData → List String)
    (Δ : List String) (g : Comp → Comp)
    (hg : ∀ c, List.Perm (collectBy p [g c]) (Δ ++ collectBy p [c])) :
    ∀ (cs : List Comp) (i : String), (findComponentById cs i).isSome →
      List.Perm (collectBy p (updateFirstById cs i g)) (Δ ++ collectBy p cs)
  | [], i => by simp [findComponentById]
  | Comp.mk d none :: rest, i => by
    intro hsome
    by_cases hid : d.id = some i
    · have hstep : updateFirstById (Comp.mk d none :: rest) i g =
          g (Comp.mk d none) :: rest := by rw [updateFirstById, if_pos hid]
      rw [hstep, collectBy_cons, collectBy_cons p (Comp.mk d none) rest,
        ← List.append_assoc]
      exact (hg _).append_right _
    · simp only [findComponentById, if_neg hid] at hsome
      have hstep : updateFirstById (Comp.mk d none :: rest) i g =
          Comp.mk d none :: updateFirstById rest i g := by
        rw [updateFirstById, if_neg hid]
      rw [hstep, collectBy_cons, collectBy_cons p (Comp.mk d none) rest]
      exact (((List.Perm.refl _).append
        (collectBy_updateFirstById_perm p Δ g hg rest i hsome)).trans
        (perm_pull_front _ _ _))
  | Comp.mk d (some cs₀) :: rest, i => by
    intro hsome
    by_cases hid : d.id = some i
    · have hstep : updateFirstById (Comp.mk d (some cs₀) :: rest) i g =
          g (Comp.mk d (some cs₀)) :: rest := by rw [updateFirstById, if_pos hid]
      rw [hstep, collectBy_cons, collectBy_cons p (Comp.mk d (some cs₀)) rest,
        ← List.append_assoc]
      exact (hg _).append_right _
    · cases hfound : findComponentById cs₀ i with
      | some c₀ =>
        have hstep : updateFirstById (Comp.mk d (some cs₀) :: rest) i g =
            Comp.mk d (some (updateFirstById cs₀ i g)) :: rest := by
          rw [updateFirstById, if_neg hid, hfound]
        rw [hstep, collectBy_cons, collectBy_cons p (Comp.mk d (some cs₀)) rest,
          collectBy_single_some, collectBy_single_some]
        have ih := collectBy_updateFirstById_perm p Δ g hg cs₀ i
          (by rw [hfound]; rfl)
        have step1 : List.Perm
            (collectBy p (updateFirstById cs₀ i g) ++ collectBy p rest)
            (Δ ++ (collectBy p cs₀ ++ collectBy p rest)) := by
          rw [← List.append_assoc]
          exact ih.append_right _
        simp only [List.append_assoc]
        exact ((List.Perm.refl (p d)).append step1).trans
          (perm_pull_front (p d) Δ _)
      | none =>
        simp only [findComponentById, if_neg hid, hfound] at hsome
        have hstep : updateFirstById (Comp.mk d (some cs₀) :: rest) i g =
            Comp.mk d (some cs₀) :: updateFirstById rest i g := by
          rw [updateFirstById, if_neg hid, hfound]
        rw [hstep, collectBy_cons, collectBy_cons p (Comp.mk d (some cs₀)) rest]
        exact (((List.Perm.refl _).append
          (collectBy_updateFirstById_perm p Δ g hg rest i hsome)).trans
          (perm_pull_front _ _ _))

/-- Every node of the updated forest either carries the data of an
original node (rebuilt ancestors, untouched nodes) or lies inside the
`g`-image of an original node. -/
theorem subtree_allCompsList_updateFirstById (g : Comp → Comp) :
    ∀ (cs : List Comp) (i : String) (x : Comp),
      x ∈ allCompsList (updateFirstById cs i g) →
      (∃ c, c ∈ allCompsList cs ∧ x.data = c.data) ∨
      (∃ c, c ∈ allCompsList cs ∧ x ∈ allCompsList [g c])
  | [], i, x => by
    intro hx
    simp [updateFirstById, allCompsList] at hx
  | Comp.mk d none :: rest, i, x => by
    intro hx
    by_cases hid : d.id = some i
    · have hstep : updateFirstById (Comp.mk d none :: rest) i g =
          g (Comp.mk d none) :: rest := by rw [updateFirstById, if_pos hid]
      rw [hstep, allCompsList_cons2, List.mem_append] at hx
      rcases hx with hx | hx
      · exact Or.inr ⟨Comp.mk d none, self_mem_allCompsList_head _ _, hx⟩
      · exact Or.inl ⟨x, mem_allCompsList_rest _ hx, rfl⟩
    · have hstep : updateFirstById (Comp.mk d none :: rest) i g =
          Comp.mk d none :: updateFirstById rest i g := by
        rw [updateFirstById, if_neg hid]
      rw [hstep, allCompsList_cons2, List.mem_append] at hx
      rcases hx with hx | hx
      · exact Or.inl ⟨x, mem_allCompsList_head hx, rfl⟩
      · rcases subtree_allCompsList_updateFirstById g rest i x hx with
          ⟨c, hc, hd⟩ | ⟨c, hc, hm⟩
        · exact Or.inl ⟨c, mem_allCompsList_rest _ hc, hd⟩
        · exact Or.inr ⟨c, mem_allCompsList_rest _ hc, hm⟩
  | Comp.mk d (some cs₀) :: rest, i, x => by
    intro hx
    by_cases hid : d.id = some i
    · have hstep : updateFirstById (Comp.mk d (some cs₀) :: rest) i g =
          g (Comp.mk d (some cs₀)) :: rest := by rw [updateFirstById, if_pos hid]
      rw [hstep, allCompsList_cons2, List.mem_append] at hx
      rcases hx with hx | hx
      · exact Or.inr ⟨Comp.mk d (some cs₀), self_mem_allCompsList_head _ _, hx⟩
      · exact Or.inl ⟨x, mem_allCompsList_rest _ hx, rfl⟩
    · cases hfound : findComponentById cs₀ i with
      | some c₀ =>
        have hstep : updateFirstById (Comp.mk d (some cs₀) :: rest) i g =
            Comp.mk d (some (updateFirstById cs₀ i g)) :: rest := by
          rw [updateFirstById, if_neg hid, hfound]
        rw [hstep, allCompsList_cons2, allCompsList_single_some,
          List.mem_append, List.mem_cons] at hx
        rcases hx with (hx | hx) | hx
        · refine Or.inl ⟨Comp.mk d (some cs₀), self_mem_allCompsList_head _ _, ?_⟩
          simp [hx]
        · rcases subtree_allCompsList_updateFirstById g cs₀ i x hx with
            ⟨c, hc, hd⟩ | ⟨c, hc, hm⟩
          · exact Or.inl ⟨c, mem_allCompsList_head
              (by rw [allCompsList_single_some]
                  exact List.mem_cons_of_mem _ hc), hd⟩
          · exact Or.inr ⟨c, mem_allCompsList_head
              (by rw [allCompsList_single_some]
                  exact List.mem_cons_of_mem _ hc), hm⟩
        · exact Or.inl ⟨x, mem_allCompsList_rest _ hx, rfl⟩
      | none =>
        have hstep : updateFirstById (Comp.mk d (some cs₀) :: rest) i g =
            Comp.mk d (some cs₀) :: updateFirstById rest i g := by
          rw [updateFirstById, if_neg hid, hfound]
        rw [hstep, allCompsList_cons2, List.mem_append] at hx
        rcases hx with hx | hx
        · exact Or.inl ⟨x, mem_allCompsList_head hx, rfl⟩
        · rcases subtree_allCompsList_updateFirstById g rest i x hx with
            ⟨c, hc, hd⟩ | ⟨c, hc, hm⟩
          · exact Or.inl ⟨c, mem_allCompsList_rest _ hc, hd⟩
          · exact Or.inr ⟨c, mem_allCompsList_rest _ hc, hm⟩

theorem collectAllKeys_cons2 (c : Comp) (rest : List Comp) :
    collectAllKeys (c :: rest) = collectAllKeys [c] ++ collectAllKeys rest := by
  obtain ⟨d, ch⟩ := c
  cases ch <;> simp [collectAllKeys]

theorem collectAllIds_cons2 (c : Comp) (rest : List Comp) :
    collectAllIds (c :: rest) = collectAllIds [c] ++ collectAllIds rest := by
  obtain ⟨d, ch⟩ := c
  cases ch <;> simp [collectAllIds]

theorem copy_base_ne_empty (k : String) : (k ++ "_copy") ≠ "" := by
  rw [str_ne_empty_iff_length_pos]
  have h1 : String.length "_copy" = 5 := rfl
  rw [String.length_append]
  omega

/-! The deep-clone invariants used by the duplicate path:
the threaded `existingKeys` list ends as the input list extended by
exactly the clone's collected keys (so every fresh key avoids everything
seen before it and the extension keeps `Nodup`); the clone carries no
empty key when the source carried none, and never an empty id. -/

mutual

theorem deepCloneComp_spec (sfx : Nat → String) :
    ∀ (c : Comp) (n : Nat) (ks : List String),
      (deepCloneComp sfx c n ks).2.2 =
          ks ++ collectAllKeys [(deepCloneComp sfx c n ks).1] ∧
      (ks.Nodup → (deepCloneComp sfx c n ks).2.2.Nodup) ∧
      ((∀ x ∈ allCompsList [c], x.data.key ≠ some "") →
        ∀ x ∈ allCompsList [(deepCloneComp sfx c n ks).1], x.data.key ≠ some "") ∧
      (∀ x ∈ allCompsList [(deepCloneComp sfx c n ks).1], x.data.id ≠ some "")
  | Comp.mk d none, n, ks => by
    cases hk : truthy? d.key with
    | some k =>
      have hkne : disambig (k ++ "_copy") ks ≠ "" :=
        disambig_ne_empty _ _ (copy_base_ne_empty k)
      have hmem := disambig_not_mem (k ++ "_copy") ks
      simp only [deepCloneComp, hk]
      refine ⟨?_, ?_, ?_, ?_⟩
      · simp [collectAllKeys, truthy?, hkne]
      · intro hnd
        rw [List.nodup_append]
        refine ⟨hnd, List.nodup_singleton _, ?_⟩
        intro a ha hb
        simp only [List.mem_singleton] at hb
        subst hb
        exact hmem ha
      · intro _ x hx
        rw [allCompsList_single_none, List.mem_singleton] at hx
        subst hx
        simp [hkne]
      · intro x hx
        rw [allCompsList_single_none, List.mem_singleton] at hx
        subst hx
        simp [clone_id_ne_empty]
    | none =>
      simp only [deepCloneComp, hk]
      refine ⟨?_, fun hnd => hnd, ?_, ?_⟩
      · simp [collectAllKeys, hk]
      · intro hsrc x hx
        rw [allCompsList_single_none, List.mem_singleton] at hx
        subst hx
        simpa using hsrc (Comp.mk d none) (self_mem_allCompsList_single _)
      · intro x hx
        rw [allCompsList_single_none, List.mem_singleton] at hx
        subst hx
        simp [clone_id_ne_empty]
  | Comp.mk d (some l), n, ks => by
    cases hk : truthy? d.key with
    | some k =>
      have hkne : disambig (k ++ "_copy") ks ≠ "" :=
        disambig_ne_empty _ _ (copy_base_ne_empty k)
      have hmem := disambig_not_mem (k ++ "_copy") ks
      obtain ⟨ih1, ih2, ih3, ih4⟩ :=
        deepCloneList_spec sfx l (n + 1) (ks ++ [disambig (k ++ "_copy") ks])
      simp only [deepCloneComp, hk]
      refine ⟨?_, ?_, ?_, ?_⟩
      · rw [ih1]
        simp [collectAllKeys, truthy?, hkne, List.append_assoc]
      · intro hnd
        apply ih2
        rw [List.nodup_append]
        refine ⟨hnd, List.nodup_singleton _, ?_⟩
        intro a ha hb
        simp only [List.mem_singleton] at hb
        subst hb
        exact hmem ha
      · intro hsrc x hx
        rw [allCompsList_single_some, List.mem_cons] at hx
        rcases hx with hx | hx
        · subst hx
          simp [hkne]
        · refine ih3 ?_ x hx
          intro y hy
          exact hsrc y (by
            rw [allCompsList_single_some]
            exact List.mem_cons_of_mem _ hy)
      · intro x hx
        rw [allCompsList_single_some, List.mem_cons] at hx
        rcases hx with hx | hx
        · subst hx
          simp [clone_id_ne_empty]
        · exact ih4 x hx
    | none =>
      obtain ⟨ih1, ih2, ih3, ih4⟩ := deepCloneList_spec sfx l (n + 1) ks
      simp only [deepCloneComp, hk]
      refine ⟨?_, ih2, ?_, ?_⟩
      · rw [ih1]
        simp [collectAllKeys, hk]
      · intro hsrc x hx
        rw [allCompsList_single_some, List.mem_cons] at hx
        rcases hx with hx | hx
        · subst hx
          simpa using hsrc (Comp.mk d (some l)) (self_mem_allCompsList_single _)
        · refine ih3 ?_ x hx
          intro y hy
          exact hsrc y (by
            rw [allCompsList_single_some]
            exact List.mem_cons_of_mem _ hy)
      · intro x hx
        rw [allCompsList_single_some, List.mem_cons] at hx
        rcases hx with hx | hx
        · subst hx
          simp [clone_id_ne_empty]
        · exact ih4 x hx

theorem deepCloneList_spec (sfx : Nat → String) :
    ∀ (l : List Comp) (n : Nat) (ks : List String),
      (deepCloneList sfx l n ks).2.2 =
          ks ++ collectAllKeys (deepCloneList sfx l n ks).1 ∧
      (ks.Nodup → (deepCloneList sfx l n ks).2.2.Nodup) ∧
      ((∀ x ∈ allCompsList l, x.data.key ≠ some "") →
        ∀ x ∈ allCompsList (deepCloneList sfx l n ks).1, x.data.key ≠ some "") ∧
      (∀ x ∈ allCompsList (deepCloneList sfx l n ks).1, x.data.id ≠ some "")
  | [], n, ks => by
    simp only [deepCloneList]
    refine ⟨by simp [collectAllKeys], fun hnd => hnd, ?_, ?_⟩
    · intro _ x hx
      simp [allCompsList] at hx
    · intro x hx
      simp [allCompsList] at hx
  | c :: rest, n, ks => by
    obtain ⟨ih1, ih2, ih3, ih4⟩ := deepCloneComp_spec sfx c n ks
    obtain ⟨jh1, jh2, jh3, jh4⟩ :=
      deepCloneList_spec sfx rest (deepCloneComp sfx c n ks).2.1
        (deepCloneComp sfx c n ks).2.2
    simp only [deepCloneList]
    refine ⟨?_, fun hnd => jh2 (ih2 hnd), ?_, ?_⟩
    · conv_rhs => rw [collectAllKeys_cons2]
      rw [jh1, ih1, List.append_assoc]
    · intro hsrc x hx
      rw [allCompsList_cons2, List.mem_append] at hx
      rcases hx with hx | hx
      · exact ih3 (fun y hy => hsrc y (mem_allCompsList_head hy)) x hx
      · exact jh3 (fun y hy => hsrc y (mem_allCompsList_rest _ hy)) x hx
    · intro x hx
      rw [allCompsList_cons2, List.mem_append] at hx
      rcases hx with hx | hx
      · exact ih4 x hx
      · exact jh4 x hx

end

/-- Structure of a successful duplicate: the new forest's collected
contents are (a permutation of) the old ones plus the clone's, the clone
is the deep clone of a node of the tree with the given counter and
`existingKeys` input, and every node of the new forest carries old data or
lies inside the clone. -/
theorem dupFirstById_spec (sfx : Nat → String) (p : CompData → List String) :
    ∀ (cs : List Comp) (sid : String) (n : Nat) (ks : List String)
      (cs₂ : List Comp) (clone : Comp) (n' : Nat) (ks' : List String),
      dupFirstById sfx cs sid n ks = some (cs₂, clone, n', ks') →
      List.Perm (collectBy p cs₂) (collectBy p [clone] ++ collectBy p cs) ∧
      (∃ src, src ∈ allCompsList cs ∧
        deepCloneComp sfx src n ks = (clone, n', ks')) ∧
      (∀ x ∈ allCompsList cs₂,
        (∃ c, c ∈ allCompsList cs ∧ x.data = c.data) ∨ x ∈ allCompsList [clone])
  | [], sid, n, ks, cs₂, clone, n', ks' => by
    intro hok
    simp [dupFirstById] at hok
  | Comp.mk d none :: rest, sid, n, ks, cs₂, clone, n', ks' => by
    intro hok
    by_cases hid : d.id = some sid
    · simp only [dupFirstById, if_pos hid, Option.some.injEq, Prod.mk.injEq] at hok
      obtain ⟨h1, h2, h3, h4⟩ := hok
      subst h1; subst h2; subst h3; subst h4
      refine ⟨?_, ?_, ?_⟩
      · rw [collectBy_cons, collectBy_cons p _ rest, collectBy_cons p (Comp.mk d none) rest]
        exact perm_pull_front _ _ _
      · exact ⟨Comp.mk d none, self_mem_allCompsList_head _ _, rfl⟩
      · intro x hx
        rw [allCompsList_cons2, List.mem_append] at hx
        rcases hx with hx | hx
        · exact Or.inl ⟨x, mem_allCompsList_head hx, rfl⟩
        · rw [allCompsList_cons2, List.mem_append] at hx
          rcases hx with hx | hx
          · exact Or.inr hx
          · exact Or.inl ⟨x, mem_allCompsList_rest _ hx, rfl⟩
    · cases hdup : dupFirstById sfx rest sid n ks with
      | some q =>
        obtain ⟨rest', clone₀, n₀, ks₀⟩ := q
        simp only [dupFirstById, if_neg hid, hdup, Option.some.injEq,
          Prod.mk.injEq] at hok
        obtain ⟨h1, h2, h3, h4⟩ := hok
        subst h1; subst h2; subst h3; subst h4
        obtain ⟨ihp, ⟨src, hsrc, hclone⟩, ihm⟩ :=
          dupFirstById_spec sfx p rest sid n ks rest' clone₀ n₀ ks₀ hdup
        refine ⟨?_, ⟨src, mem_allCompsList_rest _ hsrc, hclone⟩, ?_⟩
        · rw [collectBy_cons, collectBy_cons p (Comp.mk d none) rest]
          exact ((List.Perm.refl _).append ihp).trans (perm_pull_front _ _ _)
        · intro x hx
          rw [allCompsList_cons2, List.mem_append] at hx
          rcases hx with hx | hx
          · exact Or.inl ⟨x, mem_allCompsList_head hx, rfl⟩
          · rcases ihm x hx with ⟨c, hc, hd⟩ | hcl
            · exact Or.inl ⟨c, mem_allCompsList_rest _ hc, hd⟩
            · exact Or.inr hcl
      | none =>
        simp only [dupFirstById, if_neg hid, hdup] at hok
        exact Option.noConfusion hok
  | Comp.mk d (some cs₀) :: rest, sid, n, ks, cs₂, clone, n', ks' => by
    intro hok
    by_cases hid : d.id = some sid
    · simp only [dupFirstById, if_pos hid, Option.some.injEq, Prod.mk.injEq] at hok
      obtain ⟨h1, h2, h3, h4⟩ := hok
      subst h1; subst h2; subst h3; subst h4
      refine ⟨?_, ?_, ?_⟩
      · rw [collectBy_cons, collectBy_cons p _ rest,
          collectBy_cons p (Comp.mk d (some cs₀)) rest]
        exact perm_pull_front _ _ _
      · exact ⟨Comp.mk d (some cs₀), self_mem_allCompsList_head _ _, rfl⟩
      · intro x hx
        rw [allCompsList_cons2, List.mem_append] at hx
        rcases hx with hx | hx
        · exact Or.inl ⟨x, mem_allCompsList_head hx, rfl⟩
        · rw [allCompsList_cons2, List.mem_append] at hx
          rcases hx with hx | hx
          · exact Or.inr hx
          · exact Or.inl ⟨x, mem_allCompsList_rest _ hx, rfl⟩
    · cases hdup : dupFirstById sfx cs₀ sid n ks with
      | some q =>
        obtain ⟨cs', clone₀, n₀, ks₀⟩ := q
        simp only [dupFirstById, if_neg hid, hdup, Option.some.injEq,
          Prod.mk.injEq] at hok
        obtain ⟨h1, h2, h3, h4⟩ := hok
        subst h1; subst h2; subst h3; subst h4
        obtain ⟨ihp, ⟨src, hsrc, hclone⟩, ihm⟩ :=
          dupFirstById_spec sfx p cs₀ sid n ks cs' clone₀ n₀ ks₀ hdup
        refine ⟨?_, ?_, ?_⟩
        · rw [collectBy_cons, collectBy_cons p (Comp.mk d (some cs₀)) rest,
            collectBy_single_some, collectBy_single_some]
          have step1 : List.Perm (collectBy p cs' ++ collectBy p rest)
              (collectBy p [clone₀] ++ (collectBy p cs₀ ++ collectBy p rest)) := by
            rw [← List.append_assoc]
            exact ihp.append_right _
          simp only [List.append_assoc]
          exact ((List.Perm.refl (p d)).append step1).trans
            (perm_pull_front (p d) (collectBy p [clone₀]) _)
        · refine ⟨src, mem_allCompsList_head ?_, hclone⟩
          rw [allCompsList_single_some]
          exact List.mem_cons_of_mem _ hsrc
        · intro x hx
          rw [allCompsList_cons2, allCompsList_single_some, List.mem_append,
            List.mem_cons] at hx
          rcases hx with (hx | hx) | hx
          · refine Or.inl ⟨Comp.mk d (some cs₀), self_mem_allCompsList_head _ _, ?_⟩
            simp [hx]
          · rcases ihm x hx with ⟨c, hc, hd⟩ | hcl
            · exact Or.inl ⟨c, mem_allCompsList_head
                (by rw [allCompsList_single_some]
                    exact List.mem_cons_of_mem _ hc), hd⟩
            · exact Or.inr hcl
          · exact Or.inl ⟨x, mem_allCompsList_rest _ hx, rfl⟩
      | none =>
        cases hdup2 : dupFirstById sfx rest sid n ks with
        | some q =>
          obtain ⟨rest', clone₀, n₀, ks₀⟩ := q
          simp only [dupFirstById, if_neg hid, hdup, hdup2, Option.some.injEq,
            Prod.mk.injEq] at hok
          obtain ⟨h1, h2, h3, h4⟩ := hok
          subst h1; subst h2; subst h3; subst h4
          obtain ⟨ihp, ⟨src, hsrc, hclone⟩, ihm⟩ :=
            dupFirstById_spec sfx p rest sid n ks rest' clone₀ n₀ ks₀ hdup2
          refine ⟨?_, ⟨src, mem_allCompsList_rest _ hsrc, hclone⟩, ?_⟩
          · rw [collectBy_cons, collectBy_cons p (Comp.mk d (some cs₀)) rest]
            exact ((List.Perm.refl _).append ihp).trans (perm_pull_front _ _ _)
          · intro x hx
            rw [allCompsList_cons2, List.mem_append] at hx
            rcases hx with hx | hx
            · exact Or.inl ⟨x, mem_allCompsList_head hx, rfl⟩
            · rcases ihm x hx with ⟨c, hc, hd⟩ | hcl
              · exact Or.inl ⟨c, mem_allCompsList_rest _ hc, hd⟩
              · exact Or.inr hcl
        | none =>
          simp only [dupFirstById, if_neg hid, hdup, hdup2] at hok
          exact Option.noConfusion hok

/-! ## The operation sequences of the uniqueness claim -/

/-- An operation of the uniqueness claim: `add_form_component` (covering
both normal adds and duplicates, with its random-suffix oracle) or
`replace_form_component`. -/
inductive UniqOp : Type where
  | add : AddArgs → (Nat → String) → UniqOp
  | replace : String → String → UniqOp

def runUniqOp (f : FormState) : UniqOp → Except String FormState
  | .add a sfx =>
    match handleAddFormComponent f a sfx with
    | .error e => .error e
    | .ok (f', _) => .ok f'
  | .replace cid t => handleReplaceFormComponent f cid t

def runUniqOps : FormState → List UniqOp → Except String FormState
  | f, [] => .ok f
  | f, op :: rest =>
    match runUniqOp f op with
    | .error e => .error e
    | .ok f' => runUniqOps f' rest

/-- The freshness side conditions under which one operation preserves
uniqueness: the free-form properties bag injects no identity fields
(`id` / `key` / `components`), the generated id of a normal add does not
collide with an existing id, a keyed add derives a nonempty base key, and
a duplicate's clone draws fresh, pairwise distinct ids from the oracle. -/
def OpFresh (f : FormState) : UniqOp → Prop
  | .add a sfx =>
    a.properties.id = none ∧ a.properties.key = none ∧
    a.properties.components = none ∧
    (∀ t, truthy? a.type = some t →
      generateComponentId t a.label (sfx 0) ∉ collectAllIds f.schema.components) ∧
    (∀ t, truthy? a.type = some t → isKeyedType t = true →
      resolveKeyBase a.key a.label t ≠ "") ∧
    (∀ sid cs₂ clone n' ks', truthy? a.sourceComponentId = some sid →
      dupFirstById sfx f.schema.components sid 0
          (collectAllKeys f.schema.components) = some (cs₂, clone, n', ks') →
      (collectAllIds [clone]).Nodup ∧
      ∀ x ∈ collectAllIds [clone], x ∉ collectAllIds f.schema.components)
  | .replace _ _ => True

def OpsSafe : FormState → List UniqOp → Prop
  | _, [] => True
  | f, op :: rest =>
    OpFresh f op ∧ ∀ f', runUniqOp f op = .ok f' → OpsSafe f' rest

/-! Named pieces of the normal-mode add, so the handler's result can be
reasoned about without re-expanding its let chain. -/

def addData (f : FormState) (a : AddArgs) (sfx : Nat → String)
    (t : String) : CompData :=
  let newId := generateComponentId t a.label (sfx 0)
  let d0 := applyBag { type := t, id := some newId } a.properties
  let d1 :=
    match a.label with
    | some l => { d0 with label := some l }
    | none => d0
  if isKeyedType t then
    { d1 with key := some (resolveKey f.schema.components a.key a.label t) }
  else d1

def addComp (f : FormState) (a : AddArgs) (sfx : Nat → String)
    (t : String) : Comp :=
  Comp.mk (addData f a sfx t) a.properties.components

def addForest (f : FormState) (a : AddArgs) (sfx : Nat → String) (t : String) :
    Option String → List Comp
  | none => insertPosAdd f.schema.components (addComp f a sfx t) a.position
  | some pid =>
    updateFirstById f.schema.components pid (fun c =>
      Comp.mk c.data
        (some (insertPosAdd (c.children.getD []) (addComp f a sfx t) a.position)))

theorem handleAdd_normal_eq (f : FormState) (a : AddArgs) (sfx : Nat → String)
    (t : String) (tgt : Option String)
    (hsrc : truthy? a.sourceComponentId = none)
    (htype : truthy? a.type = some t)
    (hsup : isSupportedType t = true)
    (htgt : resolveTargetCheck f.schema.components a.parentId = .ok tgt) :
    handleAddFormComponent f a sfx =
      .ok ({ f with schema := ⟨addForest f a sfx t tgt⟩, version := f.version + 1 }, addComp f a sfx t) := by
  unfold handleAddFormComponent addForest addComp addData
  rw [hsrc, htype]
  dsimp only []
  rw [hsup, htgt]
  cases tgt <;> rfl

theorem addData_id (f : FormState) (a : AddArgs) (sfx : Nat → String)
    (t : String) (hbid : a.properties.id = none) :
    (addData f a sfx t).id = some (generateComponentId t a.label (sfx 0)) := by
  unfold addData
  cases a.label <;> by_cases hkt : isKeyedType t <;>
    simp [applyBag, hbid, hkt]

theorem addData_key_keyed (f : FormState) (a : AddArgs) (sfx : Nat → String)
    (t : String) (hkt : isKeyedType t = true) :
    (addData f a sfx t).key =
      some (resolveKey f.schema.components a.key a.label t) := by
  unfold addData
  cases a.label <;> simp [applyBag, hkt]

theorem addData_key_unkeyed (f : FormState) (a : AddArgs) (sfx : Nat → String)
    (t : String) (hbkey : a.properties.key = none)
    (hkt : isKeyedType t = false) :
    (addData f a sfx t).key = none := by
  unfold addData
  cases a.label <;> simp [applyBag, hbkey, hkt]

theorem resolveTargetCheck_some (cs : List Comp) (pidOpt : Option String)
    (pid : String) (h : resolveTargetCheck cs pidOpt = .ok (some pid)) :
    (findComponentById cs pid).isSome := by
  unfold resolveTargetCheck at h
  cases htr : truthy? pidOpt with
  | none =>
    simp only [htr] at h
    simp at h
  | some p =>
    simp only [htr] at h
    cases hfind : findComponentById cs p with
    | none => simp only [hfind] at h; exact Except.noConfusion h
    | some parent =>
      simp only [hfind] at h
      by_cases hc : isContainerType parent.data.type
      · rw [if_pos hc] at h
        injection h with h
        injection h with h
        subst h
        rw [hfind]
        rfl
      · rw [if_neg hc] at h
        exact Except.noConfusion h

theorem collectBy_single (p : CompData → List String) (c : Comp) :
    collectBy p [c] = p c.data ++ collectBy p (c.children.getD []) := by
  obtain ⟨d, ch⟩ := c
  cases ch <;> simp [collectBy]

theorem mem_allCompsList_children (c x : Comp)
    (h : x ∈ allCompsList (c.children.getD [])) : x ∈ allCompsList [c] := by
  obtain ⟨d, ch⟩ := c
  cases ch with
  | none => simp [allCompsList] at h
  | some l =>
    rw [allCompsList_single_some]
    exact List.mem_cons_of_mem _ h

/-- The node update used by a parented add gains exactly the new
component's collected contents. -/
theorem gadd_perm (p : CompData → List String) (comp : Comp)
    (pos : Option Int) (c : Comp) :
    List.Perm
      (collectBy p [Comp.mk c.data
        (some (insertPosAdd (c.children.getD []) comp pos))])
      (collectBy p [comp] ++ collectBy p [c]) := by
  rw [collectBy_single_some, collectBy_single p c]
  exact ((List.Perm.refl _).append
    (collectBy_insertPosAdd_perm p (c.children.getD []) comp pos)).trans
    (perm_pull_front _ _ _)

/-! Replace preserves the uniqueness invariant: the migration keeps the
id, keeps or drops the key, and keeps or drops the children, so the
collected lists only shrink. -/

theorem migrateData_id (d : CompData) (t : String) :
    (migrateData d t).id = d.id := rfl

theorem migrateData_key_cases (d : CompData) (t : String) :
    (migrateData d t).key = d.key ∨ (migrateData d t).key = none := by
  by_cases hkt : isKeyedType t
  · left
    show (if isKeyedType t then d.key else none) = d.key
    rw [if_pos hkt]
  · right
    show (if isKeyedType t then d.key else none) = none
    rw [if_neg hkt]

theorem keyPart_migrate_sublist (t : String) (d : CompData) :
    (keyPart (migrateData d t)).Sublist (keyPart d) := by
  unfold keyPart
  rcases migrateData_key_cases d t with hk | hk
  · rw [hk]
  · rw [hk]
    exact List.nil_sublist _

theorem migrate_sublist_ids (t : String) (c : Comp) :
    (collectBy idPart [migrateComp c t]).Sublist (collectBy idPart [c]) := by
  obtain ⟨d, ch⟩ := c
  have hmc : migrateComp (Comp.mk d ch) t =
      Comp.mk (migrateData d t) (if isContainerType t then ch else none) := rfl
  rw [hmc]
  have hip : idPart (migrateData d t) = idPart d := by
    unfold idPart
    rw [migrateData_id]
  by_cases hct : isContainerType t
  · rw [if_pos hct]
    cases ch with
    | none => rw [collectBy_single_none, collectBy_single_none, hip]
    | some l => rw [collectBy_single_some, collectBy_single_some, hip]
  · rw [if_neg hct]
    cases ch with
    | none => rw [collectBy_single_none, collectBy_single_none, hip]
    | some l =>
      rw [collectBy_single_none, collectBy_single_some, hip]
      exact List.sublist_append_left _ _

theorem migrate_sublist_keys (t : String) (c : Comp) :
    (collectBy keyPart [migrateComp c t]).Sublist (collectBy keyPart [c]) := by
  obtain ⟨d, ch⟩ := c
  have hmc : migrateComp (Comp.mk d ch) t =
      Comp.mk (migrateData d t) (if isContainerType t then ch else none) := rfl
  rw [hmc]
  by_cases hct : isContainerType t
  · rw [if_pos hct]
    cases ch with
    | none =>
      rw [collectBy_single_none, collectBy_single_none]
      exact keyPart_migrate_sublist t d
    | some l =>
      rw [collectBy_single_some, collectBy_single_some]
      exact (keyPart_migrate_sublist t d).append (List.Sublist.refl _)
  · rw [if_neg hct]
    cases ch with
    | none =>
      rw [collectBy_single_none, collectBy_single_none]
      exact keyPart_migrate_sublist t d
    | some l =>
      rw [collectBy_single_none, collectBy_single_some]
      exact (keyPart_migrate_sublist t d).trans (List.sublist_append_left _ _)

theorem mem_migrate (t : String) (c x : Comp)
    (hm : x ∈ allCompsList [migrateComp c t]) :
    (x.data.id = c.data.id ∧ (x.data.key = c.data.key ∨ x.data.key = none)) ∨
      x ∈ allCompsList [c] := by
  obtain ⟨d, ch⟩ := c
  have hmc : migrateComp (Comp.mk d ch) t =
      Comp.mk (migrateData d t) (if isContainerType t then ch else none) := rfl
  rw [hmc] at hm
  by_cases hct : isContainerType t
  · rw [if_pos hct] at hm
    cases ch with
    | none =>
      rw [allCompsList_single_none, List.mem_singleton] at hm
      subst hm
      exact Or.inl ⟨migrateData_id d t, migrateData_key_cases d t⟩
    | some l =>
      rw [allCompsList_single_some, List.mem_cons] at hm
      rcases hm with hm | hm
      · subst hm
        exact Or.inl ⟨migrateData_id d t, migrateData_key_cases d t⟩
      · right
        rw [allCompsList_single_some]
        exact List.mem_cons_of_mem _ hm
  · rw [if_neg hct] at hm
    rw [allCompsList_single_none, List.mem_singleton] at hm
    subst hm
    exact Or.inl ⟨migrateData_id d t, migrateData_key_cases d t⟩

theorem replace_preserves_TreeUniq (f : FormState) (cid t : String)
    (f' : FormState) (hok : handleReplaceFormComponent f cid t = .ok f')
    (hinv : TreeUniq f.schema.components) : TreeUniq f'.schema.components := by
  unfold TreeUniq NoEmptyIdentity at hinv ⊢
  obtain ⟨hids, hkeys, hneid, hnekey⟩ := hinv
  unfold handleReplaceFormComponent at hok
  cases hfind : findComponentById f.schema.components cid with
  | none =>
    simp only [hfind] at hok
    exact Except.noConfusion hok
  | some comp =>
    simp only [hfind] at hok
    by_cases hsup : ¬ isSupportedType t
    · rw [if_pos hsup] at hok
      exact Except.noConfusion hok
    · rw [if_neg hsup] at hok
      by_cases heq : comp.data.type = t
      · rw [if_pos heq] at hok
        exact Except.noConfusion hok
      · rw [if_neg heq] at hok
        injection hok with hok
        subst hok
        refine ⟨?_, ?_, ?_, ?_⟩
        · rw [collectAllIds_eq_collectBy]
          exact (collectBy_updateFirstById_sublist idPart _
            (migrate_sublist_ids t) f.schema.components cid).nodup
            (by rw [← collectAllIds_eq_collectBy]; exact hids)
        · rw [collectAllKeys_eq_collectBy]
          exact (collectBy_updateFirstById_sublist keyPart _
            (migrate_sublist_keys t) f.schema.components cid).nodup
            (by rw [← collectAllKeys_eq_collectBy]; exact hkeys)
        · intro x hx
          rcases subtree_allCompsList_updateFirstById _ f.schema.components cid
              x hx with ⟨c, hc, hd⟩ | ⟨c, hc, hm⟩
          · rw [hd]
            exact hneid c hc
          · rcases mem_migrate t c x hm with ⟨hxid, _⟩ | hxin
            · rw [hxid]
              exact hneid c hc
            · exact hneid x (mem_allCompsList_trans _ c hc x hxin)
        · intro x hx
          rcases subtree_allCompsList_updateFirstById _ f.schema.components cid
              x hx with ⟨c, hc, hd⟩ | ⟨c, hc, hm⟩
          · rw [hd]
            exact hnekey c hc
          · rcases mem_migrate t c x hm with ⟨_, hxkey | hxkey⟩ | hxin
            · rw [hxkey]
              exact hnekey c hc
            · rw [hxkey]
              simp
            · exact hnekey x (mem_allCompsList_trans _ c hc x hxin)

theorem handleAdd_ok_inv (f : FormState) (a : AddArgs) (sfx : Nat → String)
    (f' : FormState) (c : Comp)
    (hok : handleAddFormComponent f a sfx = .ok (f', c))
    (hsrc : truthy? a.sourceComponentId = none) :
    ∃ t tgt, truthy? a.type = some t ∧ isSupportedType t = true ∧
      resolveTargetCheck f.schema.components a.parentId = .ok tgt ∧
      f' = { f with schema := ⟨addForest f a sfx t tgt⟩, version := f.version + 1 } ∧
      c = addComp f a sfx t := by
  have hok2 := hok
  unfold handleAddFormComponent at hok2
  simp only [hsrc] at hok2
  cases htype : truthy? a.type with
  | none =>
    simp only [htype] at hok2
    exact Except.noConfusion hok2
  | some t =>
    simp only [htype] at hok2
    by_cases hsupn : ¬ isSupportedType t
    · rw [if_pos hsupn] at hok2
      exact Except.noConfusion hok2
    · cases htgt : resolveTargetCheck f.schema.components a.parentId with
      | error e =>
        rw [if_neg hsupn] at hok2
        simp only [htgt] at hok2
        exact Except.noConfusion hok2
      | ok tgt =>
        have heq := handleAdd_normal_eq f a sfx t tgt hsrc htype
          (of_not_not hsupn) htgt
        rw [heq, Except.ok.injEq, Prod.mk.injEq] at hok
        exact ⟨t, tgt, rfl, of_not_not hsupn, rfl, hok.1.symm, hok.2.symm⟩

theorem add_preserves_TreeUniq (f : FormState) (a : AddArgs) (sfx : Nat → String)
    (f' : FormState) (c : Comp)
    (hok : handleAddFormComponent f a sfx = .ok (f', c))
    (hfresh : OpFresh f (UniqOp.add a sfx))
    (hinv : TreeUniq f.schema.components) : TreeUniq f'.schema.components := by
  unfold OpFresh at hfresh
  obtain ⟨hbid, hbkey, hbcomp, hgen, hbase, hdupfresh⟩ := hfresh
  unfold TreeUniq NoEmptyIdentity at hinv ⊢
  obtain ⟨hids, hkeys, hneid, hnekey⟩ := hinv
  cases hsrc : truthy? a.sourceComponentId with
  | some sid =>
    unfold handleAddFormComponent at hok
    simp only [hsrc] at hok
    cases hfind : findComponentById f.schema.components sid with
    | none =>
      simp only [hfind] at hok
      exact Except.noConfusion hok
    | some src0 =>
      simp only [hfind] at hok
      cases hdup : dupFirstById sfx f.schema.components sid 0
          (collectAllKeys f.schema.components) with
      | none =>
        simp only [hdup] at hok
        exact Except.noConfusion hok
      | some q =>
        obtain ⟨cs₂, clone, n', ks'⟩ := q
        simp only [hdup, Except.ok.injEq, Prod.mk.injEq] at hok
        obtain ⟨hf', hcl⟩ := hok
        subst hcl
        subst hf'
        obtain ⟨hpermIds, hsrcEx, hmem⟩ :=
          dupFirstById_spec sfx idPart f.schema.components sid 0
            (collectAllKeys f.schema.components) cs₂ clone n' ks' hdup
        obtain ⟨hpermKeys, h2, h3⟩ :=
          dupFirstById_spec sfx keyPart f.schema.components sid 0
            (collectAllKeys f.schema.components) cs₂ clone n' ks' hdup
        obtain ⟨src, hsrcmem, hcloneEq⟩ := hsrcEx
        obtain ⟨hfreshN, hfreshD⟩ := hdupfresh sid cs₂ clone n' ks' hsrc hdup
        have hks' : ks' = collectAllKeys f.schema.components ++
            collectAllKeys [clone] := by
          have h := (deepCloneComp_spec sfx src 0
            (collectAllKeys f.schema.components)).1
          rw [hcloneEq] at h
          exact h
        have hksnd : ks'.Nodup := by
          have h := (deepCloneComp_spec sfx src 0
            (collectAllKeys f.schema.components)).2.1
          rw [hcloneEq] at h
          exact h hkeys
        have hclkeys : ∀ x ∈ allCompsList [clone], x.data.key ≠ some "" := by
          have h := (deepCloneComp_spec sfx src 0
            (collectAllKeys f.schema.components)).2.2.1
          rw [hcloneEq] at h
          exact h (fun y hy => hnekey y
            (mem_allCompsList_trans _ src hsrcmem y hy))
        have hclids : ∀ x ∈ allCompsList [clone], x.data.id ≠ some "" := by
          have h := (deepCloneComp_spec sfx src 0
            (collectAllKeys f.schema.components)).2.2.2
          rw [hcloneEq] at h
          exact h
        refine ⟨?_, ?_, ?_, ?_⟩
        · show (collectAllIds cs₂).Nodup
          rw [collectAllIds_eq_collectBy]
          refine List.Perm.nodup hpermIds.symm ?_
          rw [List.nodup_append]
          refine ⟨?_, ?_, ?_⟩
          · rw [← collectAllIds_eq_collectBy]
            exact hfreshN
          · rw [← collectAllIds_eq_collectBy]
            exact hids
          · intro x hx1 hx2
            rw [← collectAllIds_eq_collectBy] at hx1 hx2
            exact hfreshD x hx1 hx2
        · show (collectAllKeys cs₂).Nodup
          rw [collectAllKeys_eq_collectBy]
          refine List.Perm.nodup hpermKeys.symm ?_
          rw [hks', List.nodup_append] at hksnd
          obtain ⟨hn1, hn2, hn3⟩ := hksnd
          rw [List.nodup_append]
          refine ⟨?_, ?_, ?_⟩
          · rw [← collectAllKeys_eq_collectBy]
            exact hn2
          · rw [← collectAllKeys_eq_collectBy]
            exact hn1
          · intro x hx1 hx2
            rw [← collectAllKeys_eq_collectBy] at hx1 hx2
            exact hn3 hx2 hx1
        · intro x hx
          rcases hmem x hx with ⟨c₀, hc₀, hd⟩ | hcl
          · rw [hd]
            exact hneid c₀ hc₀
          · exact hclids x hcl
        · intro x hx
          rcases hmem x hx with ⟨c₀, hc₀, hd⟩ | hcl
          · rw [hd]
            exact hnekey c₀ hc₀
          · exact hclkeys x hcl
  | none =>
    obtain ⟨t, tgt, htype, hsup, htgt, hf', hc⟩ :=
      handleAdd_ok_inv f a sfx f' c hok hsrc
    subst hf'
    have hgen' := hgen t htype
    have hidne := generateComponentId_ne_empty t a.label (sfx 0)
    have hdid : (addData f a sfx t).id =
        some (generateComponentId t a.label (sfx 0)) := addData_id f a sfx t hbid
    have hip : idPart (addData f a sfx t) =
        [generateComponentId t a.label (sfx 0)] := by
      unfold idPart
      rw [hdid]
      simp [truthy?, hidne]
    have hkeyfacts : (keyPart (addData f a sfx t)).Nodup ∧
        (∀ x ∈ keyPart (addData f a sfx t),
          x ∉ collectBy keyPart f.schema.components) ∧
        (addData f a sfx t).key ≠ some "" := by
      by_cases hkt : isKeyedType t
      · have hdkey := addData_key_keyed f a sfx t hkt
        have hKne : resolveKey f.schema.components a.key a.label t ≠ "" :=
          disambig_ne_empty _ _ (hbase t htype hkt)
        have hKnm : resolveKey f.schema.components a.key a.label t ∉
            collectAllKeys f.schema.components := disambig_not_mem _ _
        have hkp : keyPart (addData f a sfx t) =
            [resolveKey f.schema.components a.key a.label t] := by
          unfold keyPart
          rw [hdkey]
          simp [truthy?, hKne]
        refine ⟨by rw [hkp]; exact List.nodup_singleton _, ?_, ?_⟩
        · intro x hx
          rw [hkp, List.mem_singleton] at hx
          subst hx
          rw [← collectAllKeys_eq_collectBy]
          exact hKnm
        · rw [hdkey]
          intro hcon
          injection hcon with hcon
          exact hKne hcon
      · have hkt' : isKeyedType t = false := by
          rwa [Bool.not_eq_true] at hkt
        have hdkey := addData_key_unkeyed f a sfx t hbkey hkt'
        have hkp : keyPart (addData f a sfx t) = [] := by
          unfold keyPart
          rw [hdkey]
          simp [truthy?]
        refine ⟨by rw [hkp]; exact List.nodup_nil, ?_, ?_⟩
        · intro x hx
          rw [hkp] at hx
          exact absurd hx (List.not_mem_nil x)
        · rw [hdkey]
          exact Option.noConfusion
    obtain ⟨hkpnd, hkpdisj, hkne2⟩ := hkeyfacts
    have hcompeq : addComp f a sfx t = Comp.mk (addData f a sfx t) none := by
      unfold addComp
      rw [hbcomp]
    have hcompmem : ∀ x, x ∈ allCompsList [addComp f a sfx t] →
        x.data.id ≠ some "" ∧ x.data.key ≠ some "" := by
      intro x hx
      rw [hcompeq, allCompsList_single_none, List.mem_singleton] at hx
      subst hx
      constructor
      · rw [Comp.data_mk, hdid]
        intro hcon
        injection hcon with hcon
        exact hidne hcon
      · rw [Comp.data_mk]
        exact hkne2
    have hpermI : List.Perm (collectBy idPart (addForest f a sfx t tgt))
        (collectBy idPart [addComp f a sfx t] ++
          collectBy idPart f.schema.components) := by
      cases tgt with
      | none => exact collectBy_insertPosAdd_perm idPart _ _ _
      | some pid =>
        exact collectBy_updateFirstById_perm idPart _ _
          (gadd_perm idPart (addComp f a sfx t) a.position)
          f.schema.components pid
          (resolveTargetCheck_some f.schema.components a.parentId pid htgt)
    have hpermK : List.Perm (collectBy keyPart (addForest f a sfx t tgt))
        (collectBy keyPart [addComp f a sfx t] ++
          collectBy keyPart f.schema.components) := by
      cases tgt with
      | none => exact collectBy_insertPosAdd_perm keyPart _ _ _
      | some pid =>
        exact collectBy_updateFirstById_perm keyPart _ _
          (gadd_perm keyPart (addComp f a sfx t) a.position)
          f.schema.components pid
          (resolveTargetCheck_some f.schema.components a.parentId pid htgt)
    have hmemF : ∀ x, x ∈ allCompsList (addForest f a sfx t tgt) →
        (∃ c₀, c₀ ∈ allCompsList f.schema.components ∧ x.data = c₀.data) ∨
        x ∈ allCompsList [addComp f a sfx t] := by
      intro x hx
      cases tgt with
      | none =>
        rcases mem_allCompsList_insertPosAdd _ _ _ hx with hx | hx
        · exact Or.inl ⟨x, hx, rfl⟩
        · exact Or.inr hx
      | some pid =>
        rcases subtree_allCompsList_updateFirstById _ f.schema.components pid
            x hx with ⟨c₀, hc₀, hd⟩ | ⟨c₀, hc₀, hm⟩
        · exact Or.inl ⟨c₀, hc₀, hd⟩
        · rw [allCompsList_single_some, List.mem_cons] at hm
          rcases hm with hm | hm
          · exact Or.inl ⟨c₀, hc₀, by simp [hm]⟩
          · rcases mem_allCompsList_insertPosAdd _ _ _ hm with hm | hm
            · exact Or.inl ⟨x, mem_allCompsList_trans _ c₀ hc₀ x
                (mem_allCompsList_children c₀ x hm), rfl⟩
            · exact Or.inr hm
    refine ⟨?_, ?_, ?_, ?_⟩
    · show (collectAllIds (addForest f a sfx t tgt)).Nodup
      rw [collectAllIds_eq_collectBy]
      refine List.Perm.nodup hpermI.symm ?_
      rw [List.nodup_append, hcompeq, collectBy_single_none, hip]
      refine ⟨List.nodup_singleton _, ?_, ?_⟩
      · rw [← collectAllIds_eq_collectBy]
        exact hids
      · intro x hx1 hx2
        rw [List.mem_singleton] at hx1
        subst hx1
        rw [← collectAllIds_eq_collectBy] at hx2
        exact hgen' hx2
    · show (collectAllKeys (addForest f a sfx t tgt)).Nodup
      rw [collectAllKeys_eq_collectBy]
      refine List.Perm.nodup hpermK.symm ?_
      rw [List.nodup_append, hcompeq, collectBy_single_none]
      refine ⟨hkpnd, ?_, ?_⟩
      · rw [← collectAllKeys_eq_collectBy]
        exact hkeys
      · intro x hx1 hx2
        exact hkpdisj x hx1 hx2
    · intro x hx
      rcases hmemF x hx with ⟨c₀, hc₀, hd⟩ | hcn
      · rw [hd]
        exact hneid c₀ hc₀
      · exact (hcompmem x hcn).1
    · intro x hx
      rcases hmemF x hx with ⟨c₀, hc₀, hd⟩ | hcn
      · rw [hd]
        exact hnekey c₀ hc₀
      · exact (hcompmem x hcn).2

theorem runUniqOp_preserves_TreeUniq (f : FormState) (op : UniqOp)
    (f' : FormState) (hok : runUniqOp f op = .ok f') (hfresh : OpFresh f op)
    (hinv : TreeUniq f.schema.components) : TreeUniq f'.schema.components := by
  cases op with
  | add a sfx =>
    unfold runUniqOp at hok
    cases hadd : handleAddFormComponent f a sfx with
    | error e =>
      simp only [hadd] at hok
      exact Except.noConfusion hok
    | ok pr =>
      obtain ⟨f₀, c₀⟩ := pr
      simp only [hadd] at hok
      injection hok with hok
      subst hok
      exact add_preserves_TreeUniq f a sfx f₀ c₀ hadd hfresh hinv
  | replace cid t =>
    exact replace_preserves_TreeUniq f cid t f' hok hinv

theorem runUniqOps_preserve_TreeUniq :
    ∀ (ops : List UniqOp) (f f' : FormState),
      TreeUniq f.schema.components → OpsSafe f ops →
      runUniqOps f ops = .ok f' → TreeUniq f'.schema.components
  | [], f, f' => by
    intro hinv hsafe hrun
    unfold runUniqOps at hrun
    injection hrun with hrun
    subst hrun
    exact hinv
  | op :: rest, f, f' => by
    intro hinv hsafe hrun
    unfold OpsSafe at hsafe
    obtain ⟨hfresh, hrest⟩ := hsafe
    unfold runUniqOps at hrun
    cases hop : runUniqOp f op with
    | error e =>
      simp only [hop] at hrun
      exact Except.noConfusion hrun
    | ok f₁ =>
      simp only [hop] at hrun
      exact runUniqOps_preserve_TreeUniq rest f₁ f'
        (runUniqOp_preserves_TreeUniq f op f₁ hop hfresh hinv)
        (hrest f₁ hop) hrun

/-- **C3** (amended): a sequence of successful add / duplicate /
type-replace operations preserves uniqueness of present ids and of keys
of keyed components, provided the starting tree satisfies the uniqueness
invariant (duplicate-free collected ids and keys, no empty-string id or
key) and each operation meets the freshness side conditions: its
free-form properties bag does not inject `id` / `key` / `components`, a
normal add's generated id does not collide with an existing id and a
keyed add derives a nonempty base key, and a duplicate's clone draws
fresh pairwise-distinct ids from the random oracle.  Derived keys are
disambiguated against all collected keys by `disambig` (an increasing
numeric suffix), never silently overwritten.  (The unconditional claim is
false: the counterexample shows the properties bag can inject a colliding
`id`.) -/
theorem add_replace_sequences_preserve_uniqueness
    (ops : List UniqOp) (f f' : FormState)
    (hinv : TreeUniq f.schema.components)
    (hsafe : OpsSafe f ops)
    (hrun : runUniqOps f ops = .ok f') :
    (presentIds f'.schema.components).Nodup ∧
    (keyedKeys f'.schema.components).Nodup := by
  have h := runUniqOps_preserve_TreeUniq ops f f' hinv hsafe hrun
  unfold TreeUniq NoEmptyIdentity at h
  obtain ⟨hids, hkeys, hneid, hnekey⟩ := h
  exact ⟨presentIds_nodup_of_collect _ hids hneid,
    keyedKeys_nodup_of_collect _ hkeys hnekey⟩

/-! C3 counterexample and witness fixtures. -/

def addIdCollisionArgs : AddArgs :=
  { type := some "textfield", properties := { id := some "a" } }

def collidingComp : Comp :=
  Comp.mk { type := "textfield", id := some "a", key := some "textfield" } none

/-- C3 counterexample: one successful `add_form_component` on a form with
unique ids `a`, `b` — passing `id: "a"` in the free-form properties bag —
yields a tree whose present ids are `[a, b, a]`: the spread
`{ type, id, ...properties }` lets the bag silently override the fresh
id, so the claimed invariant does not survive every successful add. -/
theorem add_bag_id_collision_cex :
    match handleAddFormComponent twoFieldForm addIdCollisionArgs oneSfx with
    | .ok (f', _) =>
        presentIds f'.schema.components = ["a", "b", "a"] ∧
        ¬ (presentIds f'.schema.components).Nodup
    | .error _ => False := by
  have hkeys : collectAllKeys twoFieldForm.schema.components = ["k1", "k2"] := by
    simp [twoFieldForm, tfa, tfb, collectAllKeys]
  have hok : handleAddFormComponent twoFieldForm addIdCollisionArgs oneSfx =
      .ok ({ name := none, schema := ⟨[tfa, tfb, collidingComp]⟩, version := 1 },
        collidingComp) := by
    unfold handleAddFormComponent resolveKey
    rw [hkeys]
    rfl
  rw [hok]
  have h1 : presentIds (FormSchema.mk [tfa, tfb, collidingComp]).components =
      ["a", "b", "a"] := by
    simp [presentIds, allCompsList, tfa, tfb, collidingComp]
  exact ⟨h1, by rw [h1]; decide⟩

def uniqOp1 : UniqOp := .add { type := some "textfield" } oneSfx

def uniqOp2 : UniqOp := .replace "a" "textarea"

def newTf : Comp :=
  Comp.mk
    { type := "textfield", id := some "Textfield_ffff", key := some "textfield" }
    none

def uniqMid : FormState :=
  { name := none, schema := ⟨[tfa, tfb, newTf]⟩, version := 1 }

def tfaTextarea : Comp :=
  Comp.mk { type := "textarea", id := some "a", key := some "k1" } none

def uniqFinal : FormState :=
  { name := none, schema := ⟨[tfaTextarea, tfb, newTf]⟩, version := 2 }

theorem uniq_witness_add : handleAddFormComponent twoFieldForm
    { type := some "textfield" } oneSfx = .ok (uniqMid, newTf) := by
  have hkeys : collectAllKeys twoFieldForm.schema.components = ["k1", "k2"] := by
    simp [twoFieldForm, tfa, tfb, collectAllKeys]
  unfold handleAddFormComponent resolveKey
  rw [hkeys]
  rfl

theorem uniq_witness_replace :
    handleReplaceFormComponent uniqMid "a" "textarea" = .ok uniqFinal := by
  simp [handleReplaceFormComponent, uniqMid, uniqFinal, tfa, tfb, newTf,
    tfaTextarea, findComponentById, updateFirstById, migrateComp, migrateData,
    isSupportedType, SUPPORTED_FIELD_TYPES, INPUT_FIELD_TYPES,
    SELECTION_FIELD_TYPES, PRESENTATION_FIELD_TYPES, CONTAINER_FIELD_TYPES,
    ACTION_FIELD_TYPES, isKeyedType, KEYED_FIELD_TYPES, isOptionsType,
    OPTIONS_FIELD_TYPES, isContainerType]

theorem uniq_witness_run :
    runUniqOps twoFieldForm [uniqOp1, uniqOp2] = .ok uniqFinal := by
  have h1 : runUniqOp twoFieldForm uniqOp1 = .ok uniqMid := by
    unfold uniqOp1 runUniqOp
    dsimp only []
    rw [uniq_witness_add]
  have h2 : runUniqOp uniqMid uniqOp2 = .ok uniqFinal := by
    unfold uniqOp2 runUniqOp
    exact uniq_witness_replace
  rw [runUniqOps, h1]
  show runUniqOps uniqMid [uniqOp2] = .ok uniqFinal
  rw [runUniqOps, h2]
  rfl

theorem uniq_witness_inv : TreeUniq twoFieldForm.schema.components := by
  unfold TreeUniq NoEmptyIdentity
  have hi : collectAllIds twoFieldForm.schema.components = ["a", "b"] := by
    simp [twoFieldForm, tfa, tfb, collectAllIds]
  have hk : collectAllKeys twoFieldForm.schema.components = ["k1", "k2"] := by
    simp [twoFieldForm, tfa, tfb, collectAllKeys]
  refine ⟨by rw [hi]; decide, by rw [hk]; decide, ?_, ?_⟩
  · intro x hx
    simp [allCompsList, twoFieldForm, tfa, tfb] at hx
    rcases hx with hx | hx <;> subst hx <;> decide
  · intro x hx
    simp [allCompsList, twoFieldForm, tfa, tfb] at hx
    rcases hx with hx | hx <;> subst hx <;> decide

theorem uniq_witness_safe : OpsSafe twoFieldForm [uniqOp1, uniqOp2] := by
  unfold OpsSafe OpFresh uniqOp1
  refine ⟨⟨rfl, rfl, rfl, ?_, ?_, ?_⟩, ?_⟩
  · intro t ht
    simp [truthy?] at ht
    subst ht
    have hi : collectAllIds twoFieldForm.schema.components = ["a", "b"] := by
      simp [twoFieldForm, tfa, tfb, collectAllIds]
    rw [hi]
    decide
  · intro t ht hkt
    simp [truthy?] at ht
    subst ht
    decide
  · intro sid cs₂ clone n' ks' hcon
    simp [truthy?] at hcon
  · intro f' h
    have h1 : runUniqOp twoFieldForm uniqOp1 = .ok uniqMid := by
      unfold uniqOp1 runUniqOp
      dsimp only []
      rw [uniq_witness_add]
    unfold uniqOp1 at h1
    rw [h1] at h
    injection h with h
    subst h
    exact ⟨trivial, fun _ _ => trivial⟩

/-- C3 witness: the amended theorem applied to the two-operation sequence
"add a textfield, then replace component `a` by a textarea" on the
two-field form, discharging the invariant, safety and success hypotheses
at that concrete input. -/
theorem add_replace_sequences_preserve_uniqueness_witness :
    TreeUniq twoFieldForm.schema.components ∧
    OpsSafe twoFieldForm [uniqOp1, uniqOp2] ∧
    runUniqOps twoFieldForm [uniqOp1, uniqOp2] = .ok uniqFinal ∧
    ((presentIds uniqFinal.schema.components).Nodup ∧
      (keyedKeys uniqFinal.schema.components).Nodup) :=
  ⟨uniq_witness_inv, uniq_witness_safe, uniq_witness_run,
    add_replace_sequences_preserve_uniqueness [uniqOp1, uniqOp2] twoFieldForm
      uniqFinal uniq_witness_inv uniq_witness_safe uniq_witness_run⟩

end FormJs
